import Mathlib

/-!
Verification development for the Ezville Wallpad RS485 bridge.

Packets are modelled as `List Nat` of byte values (each byte < 256 on the real
bus; hypotheses state this explicitly where a theorem needs it).  The
definitions below are shallow embeddings of the functions in
`custom_components/ezville_wallpad/rs485_client.py` (the "client") and
`ezville_wallpad.py` (the "script").
-/

set_option autoImplicit false

namespace Ezville

/-! ## Byte-sequence helpers -/

/-- XOR fold of a byte list, as computed by the Python loops
`for b in packet[...]: checksum ^= b` starting from 0. -/
def xorFold (l : List Nat) : Nat := l.foldl (fun a b => a ^^^ b) 0

theorem xorFold_nil : xorFold [] = 0 := rfl

theorem foldl_xor_shift (l : List Nat) (a b : Nat) :
    l.foldl (fun x y => x ^^^ y) (a ^^^ b) = a ^^^ l.foldl (fun x y => x ^^^ y) b := by
  induction l generalizing b with
  | nil => rfl
  | cons c t ih =>
    simp only [List.foldl_cons]
    rw [Nat.xor_assoc, ih]

theorem xorFold_cons (x : Nat) (l : List Nat) : xorFold (x :: l) = x ^^^ xorFold l := by
  unfold xorFold
  simp only [List.foldl_cons]
  rw [Nat.zero_xor, ← Nat.xor_zero x, Nat.xor_assoc, Nat.zero_xor, foldl_xor_shift]

theorem xorFold_append (l₁ l₂ : List Nat) :
    xorFold (l₁ ++ l₂) = xorFold l₁ ^^^ xorFold l₂ := by
  induction l₁ with
  | nil => simp [xorFold_nil, Nat.zero_xor]
  | cons x t ih => simp only [List.cons_append, xorFold_cons, ih, Nat.xor_assoc]

theorem xorFold_lt_pow (l : List Nat) (n : Nat) (h : ∀ x ∈ l, x < 2 ^ n) :
    xorFold l < 2 ^ n := by
  induction l with
  | nil => exact Nat.two_pow_pos n
  | cons x t ih =>
    rw [xorFold_cons]
    exact Nat.xor_lt_two_pow (h x (by simp)) (ih (fun y hy => h y (by simp [hy])))

theorem xorFold_lt (l : List Nat) (h : ∀ x ∈ l, x < 256) : xorFold l < 256 := by
  have := xorFold_lt_pow l 8 (by intro x hx; have := h x hx; omega)
  omega

theorem xor_self_pow_ne (x j : Nat) : x ^^^ (1 <<< j) ≠ x := by
  intro h
  have h1 : x ^^^ (x ^^^ (1 <<< j)) = 1 <<< j := by
    rw [← Nat.xor_assoc, Nat.xor_self, Nat.zero_xor]
  rw [h, Nat.xor_self] at h1
  have h2 : (1 <<< j : Nat) = 2 ^ j := by rw [Nat.shiftLeft_eq, Nat.one_mul]
  rw [h2] at h1
  exact (Nat.two_pow_pos j).ne h1

/-! ## List indexing helpers (Python `packet[i]`, `packet.take`, `packet.set`) -/

theorem getD_append_length (l : List Nat) (x : Nat) (r : List Nat) :
    (l ++ x :: r).getD l.length 0 = x := by
  induction l with
  | nil => rfl
  | cons a t ih => simpa using ih

theorem take_append_length (l r : List Nat) : (l ++ r).take l.length = l := by
  induction l with
  | nil => rfl
  | cons a t ih => simpa using ih

theorem take_append_length_succ (l : List Nat) (x : Nat) (r : List Nat) :
    (l ++ x :: r).take (l.length + 1) = l ++ [x] := by
  induction l with
  | nil => rfl
  | cons a t ih => simpa using ih

theorem getD_append_length_succ (l : List Nat) (x y : Nat) :
    (l ++ [x, y]).getD (l.length + 1) 0 = y := by
  induction l with
  | nil => rfl
  | cons a t ih => simpa using ih

theorem take_set_of_le (l : List Nat) (i m v : Nat) (h : m ≤ i) :
    (l.set i v).take m = l.take m := by
  induction l generalizing i m with
  | nil => simp
  | cons a t ih =>
    cases i with
    | zero =>
      cases m with
      | zero => simp
      | succ m => omega
    | succ i =>
      cases m with
      | zero => simp
      | succ m => simp only [List.set_cons_succ, List.take_cons_succ, List.cons.injEq,
          true_and]; exact ih i m (by omega)

theorem take_set_of_lt (l : List Nat) (i m v : Nat) (h : i < m) :
    (l.set i v).take m = (l.take m).set i v := by
  induction l generalizing i m with
  | nil => simp
  | cons a t ih =>
    cases m with
    | zero => omega
    | succ m =>
      cases i with
      | zero => simp
      | succ i =>
        simp only [List.set_cons_succ, List.take_cons_succ, List.cons.injEq, true_and]
        exact ih i m (by omega)

theorem getD_set_self (l : List Nat) (i v : Nat) (h : i < l.length) :
    (l.set i v).getD i 0 = v := by
  induction l generalizing i with
  | nil => simp at h
  | cons a t ih =>
    cases i with
    | zero => rfl
    | succ i => exact ih i (by simpa using h)

theorem getD_set_ne (l : List Nat) (i k v : Nat) (h : i ≠ k) :
    (l.set i v).getD k 0 = l.getD k 0 := by
  induction l generalizing i k with
  | nil => simp
  | cons a t ih =>
    cases i with
    | zero =>
      cases k with
      | zero => omega
      | succ k => rfl
    | succ i =>
      cases k with
      | zero => rfl
      | succ k => exact ih i k (by omega)

theorem getD_take (l : List Nat) (i m : Nat) (h : i < m) :
    (l.take m).getD i 0 = l.getD i 0 := by
  induction l generalizing i m with
  | nil => simp
  | cons a t ih =>
    cases m with
    | zero => omega
    | succ m =>
      cases i with
      | zero => rfl
      | succ i => exact ih i m (by omega)

theorem xorFold_set (l : List Nat) (i m : Nat) (h : i < l.length) :
    xorFold (l.set i (l.getD i 0 ^^^ m)) = xorFold l ^^^ m := by
  induction l generalizing i with
  | nil => simp at h
  | cons a t ih =>
    cases i with
    | zero =>
      simp only [List.set_cons_zero, List.getD_cons_zero, xorFold_cons]
      rw [Nat.xor_assoc, Nat.xor_comm m (xorFold t), ← Nat.xor_assoc]
    | succ i =>
      simp only [List.set_cons_succ, List.getD_cons_succ, xorFold_cons]
      rw [ih i (by simpa using h), ← Nat.xor_assoc]

/-! ## Checksum codec -/

/-- `_verify_checksum` (rs485_client.py): checksum = XOR of all bytes except the
last two, compared with `packet[-2]`; add = (sum of all bytes except the last
one) mod 256, compared with `packet[-1]`; packets shorter than 2 bytes fail. -/
def verifyChecksum (p : List Nat) : Bool :=
  if p.length < 2 then false
  else
    (xorFold (p.take (p.length - 2)) == p.getD (p.length - 2) 0) &&
    ((p.take (p.length - 1)).sum % 256 == p.getD (p.length - 1) 0)

/-- `serial_verify_checksum` (ezville_wallpad.py): XOR of all bytes except the
last must be zero, and (sum of all bytes except the last) mod 256 must equal the
last byte.  (The Python function indexes `packet[-1]`, so it is only ever called
with non-empty packets; this model is compared with the client verifier only for
length ≥ 2.) -/
def serialVerifyChecksum (p : List Nat) : Bool :=
  (xorFold (p.take (p.length - 1)) == 0) &&
  ((p.take (p.length - 1)).sum % 256 == p.getD (p.length - 1) 0)

/-- The trailer computation at the end of `_create_command_packet`
(rs485_client.py): over the padded packet, `checksum = XOR of packet[:-2]` and
`add = sum(packet[:-2]) & 0xFF`, written into the last two byte slots.
`body` stands for `packet[:-2]`. -/
def clientAppendTrailer (body : List Nat) : List Nat :=
  body ++ [xorFold body, body.sum % 256]

/-- `serial_generate_checksum` (ezville_wallpad.py): checksum = XOR of
`packet[:-1]`; add = `(sum(packet) + checksum) & 0xFF`. -/
def serialGenerateChecksum (p : List Nat) : Nat × Nat :=
  let c := xorFold (p.take (p.length - 1))
  (c, (p.sum + c) % 256)

/-- The call convention at every build site in the script (`mqtt_device`,
`mqtt_debug`): the packet is allocated with two zero placeholder bytes at the
end and `packet[-2], packet[-1] = serial_generate_checksum(packet)` overwrites
them.  `body` stands for the packet without the two placeholder bytes. -/
def scriptAppendTrailer (body : List Nat) : List Nat :=
  let p := body ++ [0, 0]
  let ca := serialGenerateChecksum p
  body ++ [ca.1, ca.2]

/-- Flip bit `j` of byte `i` of the packet. -/
def flipBit (p : List Nat) (i j : Nat) : List Nat :=
  p.set i (p.getD i 0 ^^^ (1 <<< j))

theorem verifyChecksum_clientTrailer (body : List Nat) :
    verifyChecksum (clientAppendTrailer body) =
      ((body.sum + xorFold body) % 256 == body.sum % 256) := by
  have hlen : (clientAppendTrailer body).length = body.length + 2 := by
    simp [clientAppendTrailer]
  unfold verifyChecksum
  rw [hlen]
  simp only [Nat.add_sub_cancel, show body.length + 2 - 1 = body.length + 1 by omega]
  rw [if_neg (by omega)]
  unfold clientAppendTrailer
  rw [getD_append_length, take_append_length, take_append_length_succ, getD_append_length_succ]
  simp only [beq_self_eq_true, Bool.true_and, List.sum_append, List.sum_cons, List.sum_nil,
    Nat.add_zero]

theorem clientTrailer_roundtrip_iff (body : List Nat) (hb : ∀ x ∈ body, x < 256) :
    verifyChecksum (clientAppendTrailer body) = true ↔ xorFold body = 0 := by
  rw [verifyChecksum_clientTrailer, beq_iff_eq]
  constructor
  · intro h
    have hc : xorFold body < 256 := xorFold_lt body hb
    omega
  · intro h
    rw [h, Nat.add_zero]

/-- The script generator applied through its placeholder convention always
produces a packet that `serial_verify_checksum` accepts. -/
theorem scriptTrailer_roundtrip (body : List Nat) :
    serialVerifyChecksum (scriptAppendTrailer body) = true := by
  unfold scriptAppendTrailer serialGenerateChecksum
  have hp : (body ++ [0, 0]).take ((body ++ [0, 0]).length - 1) = body ++ [0] := by
    have : (body ++ [0, 0]).length - 1 = body.length + 1 := by simp
    rw [this, show (body ++ [0, 0]) = body ++ (0 : Nat) :: [0] by simp, take_append_length_succ]
  simp only [hp]
  set c := xorFold (body ++ [0]) with hc
  have hcx : c = xorFold body := by
    rw [hc, xorFold_append]
    simp [xorFold]
  unfold serialVerifyChecksum
  have hlen : (body ++ [c, (List.sum (body ++ [0, 0]) + c) % 256]).length - 1 = body.length + 1 := by
    simp
  rw [hlen, take_append_length_succ, getD_append_length_succ]
  have h1 : xorFold (body ++ [c]) = 0 := by
    rw [xorFold_append, hcx]
    simp [xorFold, Nat.xor_self]
  have h2 : (body ++ [c]).sum = body.sum + c := by simp
  have h3 : (body ++ [0, 0]).sum = body.sum := by simp
  rw [h1, h2, h3]
  simp

/-- Bit-flip detection: any packet the client verifier accepts is rejected after
flipping a single bit of any byte. -/
theorem verifyChecksum_flipBit (q : List Nat) (i j : Nat)
    (hv : verifyChecksum q = true) (hi : i < q.length) :
    verifyChecksum (flipBit q i j) = false := by
  have hlen2 : 2 ≤ q.length := by
    by_contra h
    unfold verifyChecksum at hv
    rw [if_pos (by omega)] at hv
    exact Bool.false_ne_true hv
  unfold verifyChecksum at hv
  rw [if_neg (by omega)] at hv
  have hchk := (Bool.and_eq_true _ _ |>.mp hv).1
  have hadd := (Bool.and_eq_true _ _ |>.mp hv).2
  rw [beq_iff_eq] at hchk hadd
  have hset_len : (flipBit q i j).length = q.length := by simp [flipBit]
  unfold verifyChecksum
  rw [hset_len, if_neg (by omega)]
  rcases Nat.lt_trichotomy i (q.length - 2) with hcase | hcase | hcase
  · -- flip in the body: the XOR checksum test fails
    have h1 : (flipBit q i j).take (q.length - 2) = (q.take (q.length - 2)).set i (q.getD i 0 ^^^ (1 <<< j)) := by
      unfold flipBit
      exact take_set_of_lt q i (q.length - 2) _ hcase
    have hgd : (q.take (q.length - 2)).getD i 0 = q.getD i 0 := getD_take q i (q.length - 2) hcase
    have h2 : xorFold ((flipBit q i j).take (q.length - 2)) =
        xorFold (q.take (q.length - 2)) ^^^ (1 <<< j) := by
      rw [h1, ← hgd]
      exact xorFold_set (q.take (q.length - 2)) i (1 <<< j) (by simp; omega)
    have h3 : (flipBit q i j).getD (q.length - 2) 0 = q.getD (q.length - 2) 0 := by
      unfold flipBit
      exact getD_set_ne q i (q.length - 2) _ (by omega)
    rw [h2, h3, ← hchk]
    simp only [Bool.and_eq_false_iff]
    left
    rw [beq_eq_false_iff_ne]
    exact xor_self_pow_ne _ j
  · -- flip of the checksum byte: the XOR checksum test fails
    have h1 : (flipBit q i j).take (q.length - 2) = q.take (q.length - 2) := by
      unfold flipBit
      exact take_set_of_le q i (q.length - 2) _ (by omega)
    have h3 : (flipBit q i j).getD (q.length - 2) 0 = q.getD i 0 ^^^ (1 <<< j) := by
      unfold flipBit
      rw [← hcase]
      exact getD_set_self q i _ hi
    rw [h1, h3, hchk, ← hcase]
    simp only [Bool.and_eq_false_iff]
    left
    rw [beq_eq_false_iff_ne]
    intro h
    exact xor_self_pow_ne (q.getD i 0) j h.symm
  · -- flip of the add byte: the additive test fails
    have hi_eq : i = q.length - 1 := by omega
    have h1 : (flipBit q i j).take (q.length - 2) = q.take (q.length - 2) := by
      unfold flipBit
      exact take_set_of_le q i (q.length - 2) _ (by omega)
    have h2 : (flipBit q i j).take (q.length - 1) = q.take (q.length - 1) := by
      unfold flipBit
      exact take_set_of_le q i (q.length - 1) _ (by omega)
    have h3 : (flipBit q i j).getD (q.length - 2) 0 = q.getD (q.length - 2) 0 := by
      unfold flipBit
      exact getD_set_ne q i (q.length - 2) _ (by omega)
    have h4 : (flipBit q i j).getD (q.length - 1) 0 = q.getD i 0 ^^^ (1 <<< j) := by
      unfold flipBit
      rw [← hi_eq]
      exact getD_set_self q i _ hi
    rw [h1, h2, h3, h4]
    simp only [Bool.and_eq_false_iff]
    right
    rw [beq_eq_false_iff_ne, hadd, hi_eq]
    intro h
    exact xor_self_pow_ne (q.getD (q.length - 1) 0) j h.symm

/-- C1 (counterexample): for the plug power-on command body produced by
`_create_command_packet`, appending the client generator's trailer yields a
packet the client verifier rejects — the round-trip of the claim fails. -/
theorem claim1_counterexample :
    verifyChecksum (clientAppendTrailer [0xF7, 0x39, 0x10, 0x41, 0x01, 0x11]) = false := by
  decide

/-- C1 (amended): (1) the script generator (which writes its trailer over two
zero placeholder bytes) round-trips through `serial_verify_checksum` for every
body; (2) the client generator's packet passes `_verify_checksum` exactly when
the XOR fold of the pre-trailer bytes is zero, because the generator's add byte
omits the checksum byte that the verifier includes; (3) flipping any single bit
of a packet the verifier accepts makes the verifier reject it. -/
theorem claim1_checksum_roundtrip_amended :
    (∀ body : List Nat, serialVerifyChecksum (scriptAppendTrailer body) = true) ∧
    (∀ body : List Nat, (∀ x ∈ body, x < 256) →
      (verifyChecksum (clientAppendTrailer body) = true ↔ xorFold body = 0)) ∧
    (∀ (q : List Nat) (i j : Nat), verifyChecksum q = true → i < q.length →
      verifyChecksum (flipBit q i j) = false) :=
  ⟨scriptTrailer_roundtrip, clientTrailer_roundtrip_iff,
    fun q i j hv hi => verifyChecksum_flipBit q i j hv hi⟩

/-- C1 witness: the amended theorem applied at concrete inputs. -/
theorem claim1_witness :
    (verifyChecksum (clientAppendTrailer [0xF7, 0xF7]) = true ↔ xorFold [0xF7, 0xF7] = 0) ∧
    verifyChecksum (flipBit [0xF7, 0xF7, 0x00, 0xEE] 0 0) = false :=
  ⟨claim1_checksum_roundtrip_amended.2.1 [0xF7, 0xF7] (by decide),
   claim1_checksum_roundtrip_amended.2.2 [0xF7, 0xF7, 0x00, 0xEE] 0 0 (by decide) (by decide)⟩

/-! ## C9: the two verifiers agree -/

theorem take_succ_getD (l : List Nat) (k : Nat) (h : k < l.length) :
    l.take (k + 1) = l.take k ++ [l.getD k 0] := by
  induction l generalizing k with
  | nil => simp at h
  | cons a t ih =>
    cases k with
    | zero => simp
    | succ k =>
      simp only [List.take_cons_succ, List.getD_cons_succ, List.cons_append, List.cons.injEq,
        true_and]
      exact ih k (by simpa using h)

theorem take_pred_split (q : List Nat) (h : 2 ≤ q.length) :
    q.take (q.length - 1) = q.take (q.length - 2) ++ [q.getD (q.length - 2) 0] := by
  have e : q.length - 1 = (q.length - 2) + 1 := by omega
  rw [e]
  exact take_succ_getD q (q.length - 2) (by omega)

/-- C9 (confirmed): for every byte sequence of length ≥ 2 the client verifier
`_verify_checksum` and the script verifier `serial_verify_checksum` return the
same boolean: XOR(packet[:-1]) = 0 is equivalent to
XOR(packet[:-2]) = packet[-2], and both compare sum(packet[:-1]) mod 256 with
packet[-1]. -/
theorem claim9_verifiers_equivalent (p : List Nat) (h : 2 ≤ p.length) :
    verifyChecksum p = serialVerifyChecksum p := by
  unfold verifyChecksum serialVerifyChecksum
  rw [if_neg (by omega)]
  have hsplit := take_pred_split p h
  have hx : xorFold (p.take (p.length - 1)) =
      xorFold (p.take (p.length - 2)) ^^^ p.getD (p.length - 2) 0 := by
    rw [hsplit, xorFold_append]
    simp [xorFold]
  congr 1
  rw [hx, Bool.eq_iff_iff]
  simp only [beq_iff_eq]
  constructor
  · intro hxy
    rw [hxy, Nat.xor_self]
  · intro hxy
    exact Nat.xor_eq_zero.mp hxy

/-- C9 witness: equivalence instantiated at a concrete packet. -/
theorem claim9_witness :
    verifyChecksum [0xF7, 0x0E, 0xF9, 0xFE] = serialVerifyChecksum [0xF7, 0x0E, 0xF9, 0xFE] :=
  claim9_verifiers_equivalent [0xF7, 0x0E, 0xF9, 0xFE] (by decide)

/-! ## Frame reader (`_process_buffer`, rs485_client.py) -/

/-- STATE_HEADER from const.py: state id byte ↦ (device name, state command
byte), derived from RS485_DEVICE. -/
def STATE_HEADER : List (Nat × String × Nat) :=
  [(0x0E, ("light", 0x81)), (0x39, ("plug", 0x81)), (0x36, ("thermostat", 0x81)),
   (0x32, ("fan", 0x81)), (0x12, ("gas", 0x81)), (0x30, ("energy", 0x81)),
   (0x33, ("elevator", 0x81)), (0x40, ("doorbell", 0x81))]

/-- `header_1 in STATE_HEADER` dictionary lookup. -/
def stateHeaderLookup (id : Nat) : Option (String × Nat) :=
  (STATE_HEADER.find? (fun e => e.1 == id)).map Prod.snd

/-- `header_1 in STATE_HEADER and header_3 == STATE_HEADER[header_1][1]`. -/
def frameIsState (h1 h3 : Nat) : Bool :=
  match stateHeaderLookup h1 with
  | some dc => h3 == dc.2
  | none => false

/-- The linear scan for the first 0xF7 sentinel
(`for i in range(len(buffer)): if buffer[i] == 0xF7: ...`). -/
def findF7 : List Nat → Option Nat
  | [] => none
  | b :: rest => if b = 0xF7 then some 0 else (findF7 rest).map (fun i => i + 1)

/-- `while len(buffer) > 1 and buffer[0] == 0xF7 and buffer[1] == 0xF7:
del buffer[0]` — collapse a run of sentinel bytes. -/
def dropDupF7 : List Nat → List Nat
  | a :: b :: rest => if a = 0xF7 ∧ b = 0xF7 then dropDupF7 (b :: rest) else a :: b :: rest
  | l => l

/-- The `while len(buffer) > 0` loop of `_process_buffer`, with the recursion
fuelled by the buffer length (every extracted frame removes at least one byte).
Returns the remaining buffer contents and the checksum-valid packets handed to
`_process_packet`, in order. -/
def processLoop : Nat → List Nat → List Nat × List (List Nat)
  | 0, buf => (buf, [])
  | fuel + 1, buf =>
    if buf.isEmpty then (buf, [])
    else
      match findF7 buf with
      | none => ([], [])
      | some start =>
        let b := dropDupF7 (buf.drop start)
        if b.length < 4 then (b, [])
        else
          let h1 := b.getD 1 0
          let h3 := b.getD 3 0
          if frameIsState h1 h3 ∧ b.length < 5 then (b, [])
          else
            let plen0 := if frameIsState h1 h3 then 5 + b.getD 4 0 + 2 else 8
            let plen := match findF7 (b.drop 1) with
              | some i => if i + 1 < plen0 then i + 1 else plen0
              | none => plen0
            if b.length < plen then (b, [])
            else
              let pkt := b.take plen
              let rest := b.drop plen
              let r := processLoop fuel rest
              if verifyChecksum pkt then (r.1, pkt :: r.2) else r

/-- `_process_buffer` on one buffer (mutation of the Python bytearray is
modelled by returning the remaining buffer). -/
def processBuffer (buf : List Nat) : List Nat × List (List Nat) :=
  processLoop (buf.length + 1) buf

/-- One received chunk appended to the persistent buffer and processed, as the
message loop does (`buffer.extend(data); self._process_buffer(buffer)`). -/
def feedStep (acc : List Nat × List (List Nat)) (c : List Nat) : List Nat × List (List Nat) :=
  let r := processBuffer (acc.1 ++ c)
  (r.1, acc.2 ++ r.2)

/-- Feeding successive received chunks into an initially empty persistent
buffer, collecting all checksum-valid packets that are emitted. -/
def feedChunks (chunks : List (List Nat)) : List Nat × List (List Nat) :=
  chunks.foldl feedStep ([], [])

theorem stateHeader_cmds : ∀ e ∈ STATE_HEADER, e.2.2 = 0x81 := by decide

theorem stateHeaderLookup_cmd (id : Nat) (dc : String × Nat)
    (h : stateHeaderLookup id = some dc) : dc.2 = 0x81 := by
  unfold stateHeaderLookup at h
  cases hf : STATE_HEADER.find? (fun e => e.1 == id) with
  | none => rw [hf] at h; simp at h
  | some e =>
    rw [hf] at h
    have he : e.2 = dc := by simpa using h
    have hmem := List.mem_of_find?_eq_some hf
    rw [← he]
    exact stateHeader_cmds e hmem

theorem frameIsState_cmd41 (h1 : Nat) : frameIsState h1 0x41 = false := by
  unfold frameIsState
  cases hf : stateHeaderLookup h1 with
  | none => rfl
  | some dc =>
    have := stateHeaderLookup_cmd h1 dc hf
    simp [this]

theorem findF7_eq_none (l : List Nat) (h : ∀ x ∈ l, x ≠ 0xF7) : findF7 l = none := by
  induction l with
  | nil => rfl
  | cons a t ih =>
    unfold findF7
    rw [if_neg (h a (by simp)), ih (fun x hx => h x (by simp [hx]))]
    rfl

theorem findF7_of_head (l : List Nat) (hne : l ≠ []) (h0 : l.getD 0 0 = 0xF7) :
    findF7 l = some 0 := by
  cases l with
  | nil => exact absurd rfl hne
  | cons a t =>
    unfold findF7
    rw [if_pos (by simpa using h0)]

theorem findF7_cons (a : Nat) (t : List Nat) :
    findF7 (a :: t) = if a = 0xF7 then some 0 else (findF7 t).map (fun i => i + 1) := rfl

theorem findF7_append_none (g l : List Nat) (hg : ∀ x ∈ g, x ≠ 0xF7) :
    findF7 (g ++ l) = (findF7 l).map (fun i => i + g.length) := by
  induction g with
  | nil => simp [Option.map_id]
  | cons a t ih =>
    simp only [List.cons_append, findF7_cons]
    rw [if_neg (hg a (by simp)), ih (fun x hx => hg x (by simp [hx]))]
    cases findF7 l with
    | none => rfl
    | some v => simp [Nat.add_assoc]

theorem dropDupF7_of_snd_ne (l : List Nat) (h : l.getD 1 0 ≠ 0xF7) : dropDupF7 l = l := by
  cases l with
  | nil => rfl
  | cons a t =>
    cases t with
    | nil => rfl
    | cons b u =>
      unfold dropDupF7
      rw [if_neg]
      intro hc
      exact h (by simpa using hc.2)

theorem getD_mem (l : List Nat) (i : Nat) (h : i < l.length) : l.getD i 0 ∈ l := by
  induction l generalizing i with
  | nil => simp at h
  | cons a t ih =>
    cases i with
    | zero => simp
    | succ i => exact List.mem_cons_of_mem a (ih i (by simpa using h))

theorem tail_all_ne (p : List Nat) (c : Nat)
    (ht : ∀ x ∈ p.tail, x ≠ c) (i : Nat) (h1 : 1 ≤ i) (h2 : i < p.length) :
    p.getD i 0 ≠ c := by
  cases p with
  | nil => simp at h2
  | cons b t =>
    cases i with
    | zero => omega
    | succ i =>
      show t.getD i 0 ≠ c
      exact ht _ (getD_mem t i (by simpa using h2))

theorem getD_of_len_le (l : List Nat) (i : Nat) (h : l.length ≤ i) : l.getD i 0 = 0 := by
  induction l generalizing i with
  | nil => simp
  | cons a t ih =>
    cases i with
    | zero => simp at h
    | succ i => simpa using ih i (by simpa using h)

theorem drop_one_take_subset (l : List Nat) (m : Nat) :
    (l.take m).drop 1 ⊆ l.drop 1 := by
  cases l with
  | nil => simp
  | cons a t =>
    cases m with
    | zero => simp
    | succ m =>
      simp only [List.take_succ_cons, List.drop_one, List.tail_cons]
      exact List.take_subset m t

theorem take_add_split (l : List Nat) (m k : Nat) :
    l.take m ++ (l.drop m).take k = l.take (m + k) := by
  induction l generalizing m with
  | nil => simp
  | cons a t ih =>
    cases m with
    | zero => simp
    | succ m =>
      simp only [List.take_succ_cons, List.drop_succ_cons, List.cons_append, Nat.succ_add]
      rw [ih]

/-- Any strict nonempty prefix of a fixed-length 8-byte frame (sentinel first,
no interior sentinel, non-state command byte 0x41) is left waiting in the
buffer with nothing emitted. -/
theorem processLoop_prefix (n : Nat) (p : List Nat) (m : Nat) (hp : p.length = 8)
    (h0 : p.getD 0 0 = 0xF7) (ht : ∀ x ∈ p.tail, x ≠ 0xF7) (h3 : p.getD 3 0 = 0x41)
    (hm1 : 1 ≤ m) (hm8 : m < 8) :
    processLoop (n + 1) (p.take m) = (p.take m, []) := by
  have hlen : (p.take m).length = m := by
    simp only [List.length_take, hp]
    omega
  have hne : p.take m ≠ [] := by
    intro h
    rw [h] at hlen
    simp at hlen
    omega
  have h0t : (p.take m).getD 0 0 = 0xF7 := by
    rw [getD_take p 0 m (by omega)]
    exact h0
  have hemp : (p.take m).isEmpty = false := by
    cases hq : p.take m
    · exact absurd hq hne
    · rfl
  have hf : findF7 (p.take m) = some 0 := findF7_of_head _ hne h0t
  have hdrop : dropDupF7 (p.take m) = p.take m := by
    apply dropDupF7_of_snd_ne
    by_cases h2 : 2 ≤ m
    · rw [getD_take p 1 m (by omega)]
      exact tail_all_ne p 0xF7 ht 1 (by omega) (by omega)
    · rw [getD_of_len_le _ 1 (by omega)]
      norm_num
  simp only [processLoop, hemp, Bool.false_eq_true, if_false, hf, List.drop_zero, hdrop, hlen]
  by_cases hm4 : m < 4
  · rw [if_pos hm4]
  · rw [if_neg hm4]
    have h3t : (p.take m).getD 3 0 = 0x41 := by
      rw [getD_take p 3 m (by omega)]
      exact h3
    rw [h3t, frameIsState_cmd41]
    simp only [Bool.false_eq_true, false_and, if_false]
    have hdt : findF7 ((p.take m).drop 1) = none := by
      apply findF7_eq_none
      intro x hx
      apply ht
      have := drop_one_take_subset p m hx
      simpa [List.drop_one] using this
    rw [hdt]
    simp only [if_pos hm8]

/-- A complete 8-byte frame at the head of the buffer (sentinel first, no
interior sentinel, non-state command byte 0x41, valid checksum) is extracted,
verified and emitted, leaving an empty buffer. -/
theorem processLoop_full (n : Nat) (p : List Nat) (hp : p.length = 8)
    (h0 : p.getD 0 0 = 0xF7) (ht : ∀ x ∈ p.tail, x ≠ 0xF7) (h3 : p.getD 3 0 = 0x41)
    (hv : verifyChecksum p = true) :
    processLoop (n + 2) p = ([], [p]) := by
  have hne : p ≠ [] := by
    intro h
    rw [h] at hp
    simp at hp
  have hemp : p.isEmpty = false := by
    cases hq : p
    · exact absurd hq hne
    · rfl
  have hf : findF7 p = some 0 := findF7_of_head _ hne h0
  have hdrop : dropDupF7 p = p :=
    dropDupF7_of_snd_ne p (tail_all_ne p 0xF7 ht 1 (by omega) (by omega))
  have hnf : findF7 (p.drop 1) = none := by
    apply findF7_eq_none
    intro x hx
    apply ht
    simpa [List.drop_one] using hx
  have hpk : List.take 8 p = p := by rw [← hp]; exact List.take_length p
  have hrs : List.drop 8 p = ([] : List Nat) := by rw [← hp]; exact List.drop_length p
  show processLoop (n + 1 + 1) p = ([], [p])
  simp only [processLoop, hemp, Bool.false_eq_true, if_false, hf, List.drop_zero, hdrop, hp, h3,
    frameIsState_cmd41, false_and, if_false, hnf, hpk, hrs, List.isEmpty_nil, if_true]
  norm_num [hv]

/-- Non-sentinel garbage before the first 0xF7 is dropped by the resync scan,
after which processing continues exactly as if the buffer had started at the
sentinel. -/
theorem processLoop_append_garbage (n : Nat) (g l : List Nat)
    (hg : ∀ x ∈ g, x ≠ 0xF7) (hne : l ≠ []) (h0 : l.getD 0 0 = 0xF7) :
    processLoop (n + 1) (g ++ l) = processLoop (n + 1) l := by
  have hfl : findF7 l = some 0 := findF7_of_head l hne h0
  have hfgl : findF7 (g ++ l) = some g.length := by
    rw [findF7_append_none g l hg, hfl]
    simp
  have hel : l.isEmpty = false := by
    cases hq : l
    · exact absurd hq hne
    · rfl
  have hegl : (g ++ l).isEmpty = false := by
    cases hq : g ++ l
    · exact absurd (List.append_eq_nil.mp hq).2 hne
    · rfl
  simp only [processLoop, hel, hegl, Bool.false_eq_true, if_false, hfl, hfgl, List.drop_zero,
    List.drop_left]

/-- A buffer with no sentinel byte is cleared entirely with nothing emitted
(this also covers the empty buffer). -/
theorem processBuffer_garbage (l : List Nat) (hg : ∀ x ∈ l, x ≠ 0xF7) :
    processBuffer l = ([], []) := by
  cases l with
  | nil => rfl
  | cons a t =>
    simp only [processBuffer, List.length_cons, processLoop, List.isEmpty_cons,
      Bool.false_eq_true, if_false, findF7_eq_none _ hg]

theorem processBuffer_prefix (p : List Nat) (m : Nat) (hp : p.length = 8)
    (h0 : p.getD 0 0 = 0xF7) (ht : ∀ x ∈ p.tail, x ≠ 0xF7) (h3 : p.getD 3 0 = 0x41)
    (hm1 : 1 ≤ m) (hm8 : m < 8) :
    processBuffer (p.take m) = (p.take m, []) :=
  processLoop_prefix (p.take m).length p m hp h0 ht h3 hm1 hm8

theorem processBuffer_garbage_pfx (g p : List Nat) (m : Nat)
    (hg : ∀ x ∈ g, x ≠ 0xF7) (hp : p.length = 8)
    (h0 : p.getD 0 0 = 0xF7) (ht : ∀ x ∈ p.tail, x ≠ 0xF7) (h3 : p.getD 3 0 = 0x41)
    (hm1 : 1 ≤ m) (hm8 : m < 8) :
    processBuffer (g ++ p.take m) = (p.take m, []) := by
  have hlen : (p.take m).length = m := by
    simp only [List.length_take, hp]
    omega
  have hne : p.take m ≠ [] := by
    intro h
    rw [h] at hlen
    simp at hlen
    omega
  have h0t : (p.take m).getD 0 0 = 0xF7 := by
    rw [getD_take p 0 m (by omega)]
    exact h0
  unfold processBuffer
  rw [processLoop_append_garbage _ g (p.take m) hg hne h0t]
  exact processLoop_prefix _ p m hp h0 ht h3 hm1 hm8

theorem processBuffer_full (p : List Nat) (hp : p.length = 8)
    (h0 : p.getD 0 0 = 0xF7) (ht : ∀ x ∈ p.tail, x ≠ 0xF7) (h3 : p.getD 3 0 = 0x41)
    (hv : verifyChecksum p = true) :
    processBuffer p = ([], [p]) := by
  unfold processBuffer
  rw [hp]
  exact processLoop_full 7 p hp h0 ht h3 hv

theorem processBuffer_garbage_full (g p : List Nat)
    (hg : ∀ x ∈ g, x ≠ 0xF7) (hp : p.length = 8)
    (h0 : p.getD 0 0 = 0xF7) (ht : ∀ x ∈ p.tail, x ≠ 0xF7) (h3 : p.getD 3 0 = 0x41)
    (hv : verifyChecksum p = true) :
    processBuffer (g ++ p) = ([], [p]) := by
  have hne : p ≠ [] := by
    intro h
    rw [h] at hp
    simp at hp
  unfold processBuffer
  rw [processLoop_append_garbage _ g p hg hne h0]
  have he : (g ++ p).length = (g.length + 7) + 1 := by simp [hp]
  rw [he]
  exact processLoop_full (g.length + 7) p hp h0 ht h3 hv

/-- Invariant-based run of the chunk feed: starting from any reachable state of
the feed (garbage still pending, a partial frame buffered, or the frame already
emitted), the remaining chunks drive the reader to emit exactly the one valid
packet. -/
theorem feed_aux (p : List Nat) (hp : p.length = 8) (h0 : p.getD 0 0 = 0xF7)
    (ht : ∀ x ∈ p.tail, x ≠ 0xF7) (h3 : p.getD 3 0 = 0x41) (hv : verifyChecksum p = true) :
    ∀ (chunks : List (List Nat)) (buf : List Nat) (out : List (List Nat)),
    ((out = [] ∧ buf = [] ∧ ∃ g, (∀ x ∈ g, x ≠ 0xF7) ∧ chunks.flatten = g ++ p)
     ∨ (out = [] ∧ ∃ m, 1 ≤ m ∧ m < 8 ∧ buf = p.take m ∧ chunks.flatten = p.drop m)
     ∨ (out = [p] ∧ buf = [] ∧ chunks.flatten = [])) →
    chunks.foldl feedStep (buf, out) = ([], [p]) := by
  intro chunks
  induction chunks with
  | nil =>
    intro buf out hinv
    rcases hinv with ⟨ho, hb, g, hg, hj⟩ | ⟨ho, m, hm1, hm8, hb, hj⟩ | ⟨ho, hb, hj⟩
    · exfalso
      simp only [List.flatten_nil] at hj
      have := congrArg List.length hj
      simp [hp] at this
    · exfalso
      simp only [List.flatten_nil] at hj
      have := List.drop_eq_nil_iff.mp hj.symm
      omega
    · simp [hb, ho]
  | cons c rest ih =>
    intro buf out hinv
    simp only [List.foldl_cons]
    rcases hinv with ⟨ho, hb, g, hg, hj⟩ | ⟨ho, m, hm1, hm8, hb, hj⟩ | ⟨ho, hb, hj⟩
    · -- garbage (possibly followed by part of the packet) still to come
      simp only [List.flatten_cons] at hj
      rcases List.append_eq_append_iff.mp hj with ⟨w, hgw, hrj⟩ | ⟨w, hcw, hpw⟩
      · -- the chunk is entirely garbage
        have hcg : ∀ x ∈ c, x ≠ 0xF7 := by
          intro x hx
          exact hg x (by rw [hgw]; exact List.mem_append_left w hx)
        have hstep : feedStep (buf, out) c = ([], []) := by
          simp only [feedStep, hb, ho, List.nil_append, List.append_nil,
            processBuffer_garbage c hcg]
        rw [hstep]
        apply ih
        left
        refine ⟨rfl, rfl, w, ?_, hrj⟩
        intro x hx
        exact hg x (by rw [hgw]; exact List.mem_append_right c hx)
      · -- the chunk ends the garbage and begins (or completes) the packet
        obtain ⟨m, hm⟩ : ∃ m, w.length = m := ⟨w.length, rfl⟩
        have hwlen : m ≤ 8 := by
          have := congrArg List.length hpw
          simp only [List.length_append, hp, hm] at this
          omega
        have hwtake : w = p.take m := by
          rw [← hm, hpw, List.take_left]
        have hrj : rest.flatten = p.drop m := by
          have h1 : p.take m ++ p.drop m = p.take m ++ rest.flatten :=
            calc p.take m ++ p.drop m = p := List.take_append_drop m p
              _ = w ++ rest.flatten := hpw
              _ = p.take m ++ rest.flatten := by rw [hwtake]
          exact (List.append_cancel_left h1).symm
        rcases Nat.lt_or_ge m 1 with hw0 | hw1
        · -- the chunk contributed no packet bytes
          have hwnil : w = [] := List.length_eq_zero.mp (by omega)
          have hcg : ∀ x ∈ c, x ≠ 0xF7 := by
            rw [hcw, hwnil, List.append_nil]
            exact hg
          have hstep : feedStep (buf, out) c = ([], []) := by
            simp only [feedStep, hb, ho, List.nil_append, List.append_nil,
              processBuffer_garbage c hcg]
          rw [hstep]
          apply ih
          left
          refine ⟨rfl, rfl, [], by simp, ?_⟩
          rw [hrj]
          have : m = 0 := by omega
          rw [this, List.drop_zero]
          simp
        · rcases Nat.lt_or_ge m 8 with hw8 | hw8
          · -- a strict prefix of the packet is now buffered
            have hstep : feedStep (buf, out) c = (p.take m, []) := by
              simp only [feedStep, hb, ho, List.nil_append, List.append_nil, hcw, hwtake]
              rw [processBuffer_garbage_pfx g p m hg hp h0 ht h3 hw1 hw8]
            rw [hstep]
            apply ih
            right; left
            exact ⟨rfl, m, hw1, hw8, rfl, hrj⟩
          · -- the chunk completes the whole packet
            have hweq : w = p := by
              have hm8 : m = 8 := by omega
              rw [hwtake, hm8, ← hp, List.take_length]
            have hstep : feedStep (buf, out) c = ([], [p]) := by
              simp only [feedStep, hb, ho, List.nil_append, hcw, hweq,
                processBuffer_garbage_full g p hg hp h0 ht h3 hv]
            rw [hstep]
            apply ih
            right; right
            refine ⟨by simp, rfl, ?_⟩
            rw [hrj]
            have hm8 : m = 8 := by omega
            rw [hm8, ← hp, List.drop_length]
    · -- a strict prefix of the packet is buffered; the chunk extends it
      simp only [List.flatten_cons] at hj
      have hcpre : c = (p.drop m).take c.length := by
        rw [← hj, List.take_left]
      have hclen : c.length ≤ 8 - m := by
        have h2 := congrArg List.length hj
        simp only [List.length_append, List.length_drop, hp] at h2
        omega
      have hbc : buf ++ c = p.take (m + c.length) := by
        rw [hb]
        conv_lhs => rw [hcpre]
        rw [take_add_split]
      have hrj : rest.flatten = p.drop (m + c.length) := by
        have h2 : rest.flatten = (p.drop m).drop c.length := by
          rw [← hj, List.drop_left]
        rw [h2, List.drop_drop]
      rcases Nat.lt_or_ge (m + c.length) 8 with hm2 | hm2
      · have hstep : feedStep (buf, out) c = (p.take (m + c.length), []) := by
          simp only [feedStep, ho, List.nil_append, List.append_nil, hbc,
            processBuffer_prefix p (m + c.length) hp h0 ht h3 (by omega) hm2]
        rw [hstep]
        apply ih
        right; left
        exact ⟨rfl, m + c.length, by omega, hm2, rfl, hrj⟩
      · have hm8e : m + c.length = 8 := by omega
        have hstep : feedStep (buf, out) c = ([], [p]) := by
          simp only [feedStep, ho, List.nil_append, hbc, hm8e]
          rw [← hp, List.take_length,
            processBuffer_full p hp h0 ht h3 hv]
        rw [hstep]
        apply ih
        right; right
        refine ⟨by simp, rfl, ?_⟩
        rw [hrj, hm8e, ← hp, List.drop_length]
    · -- the packet has been emitted; only empty chunks may remain
      simp only [List.flatten_cons, List.append_eq_nil] at hj
      have hstep : feedStep (buf, out) c = ([], [p]) := by
        simp only [feedStep, hb, ho, hj.1, List.append_nil,
          processBuffer_garbage [] (by simp)]
      rw [hstep]
      apply ih
      right; right
      exact ⟨rfl, rfl, hj.2⟩

/-- C7 (confirmed): non-sentinel garbage followed by a checksum-valid 8-byte
light power-command frame (sentinel first, command byte 0x41, no interior
sentinel byte), delivered across arbitrarily split chunks into the persistent
buffer, yields exactly one validated packet — the frame itself — and an empty
buffer; moreover an empty buffer is a no-op and a buffer with no sentinel is
cleared entirely. -/
theorem claim7_framing_resync :
    (∀ (chunks : List (List Nat)) (g p : List Nat),
      (∀ x ∈ g, x ≠ 0xF7) → p.length = 8 → p.getD 0 0 = 0xF7 →
      (∀ x ∈ p.tail, x ≠ 0xF7) → p.getD 1 0 = 0x0E → p.getD 3 0 = 0x41 →
      verifyChecksum p = true → chunks.flatten = g ++ p →
      feedChunks chunks = ([], [p])) ∧
    processBuffer [] = ([], []) ∧
    (∀ l : List Nat, (∀ x ∈ l, x ≠ 0xF7) → processBuffer l = ([], [])) := by
  refine ⟨?_, rfl, processBuffer_garbage⟩
  intro chunks g p hg hp h0 ht _ h3 hv hj
  unfold feedChunks
  exact feed_aux p hp h0 ht h3 hv chunks [] []
    (Or.inl ⟨rfl, rfl, g, hg, hj⟩)

/-- C7 witness: garbage `[01, 33]`, then the valid light power frame
`F7 0E 11 41 03 01 AB 06`, split across three chunks. -/
theorem claim7_witness :
    feedChunks [[0x01, 0x33], [0xF7, 0x0E, 0x11], [0x41, 0x03, 0x01, 0xAB, 0x06]] =
      ([], [[0xF7, 0x0E, 0x11, 0x41, 0x03, 0x01, 0xAB, 0x06]]) :=
  claim7_framing_resync.1 [[0x01, 0x33], [0xF7, 0x0E, 0x11], [0x41, 0x03, 0x01, 0xAB, 0x06]]
    [0x01, 0x33] [0xF7, 0x0E, 0x11, 0x41, 0x03, 0x01, 0xAB, 0x06]
    (by decide) (by decide) (by decide) (by decide) (by decide) (by decide) (by decide) (by decide)

/-! ## Client data model (rs485_client.py)

Decoded state dictionaries, callback events, and the per-connection mutable
state (`_discovered_devices`, `_device_states`, `_callbacks`). -/

/-- Values stored in a decoded state dictionary.  The floats the Python code
builds from digit strings are represented exactly: `tenths n` is n/10 (plug
power_usage, energy usage) and `cents n` is n/100 (energy current_power). -/
inductive Val where
  | b (v : Bool)
  | n (v : Nat)
  | s (v : String)
  | tenths (v : Nat)
  | cents (v : Nat)
  | bytes (v : List Nat)
  deriving DecidableEq, Repr

/-- Instance identifier passed to callbacks: a string for light/plug and for
command/unknown sensors, an int for thermostat rooms, none for singleton
devices. -/
inductive Idn where
  | s (v : String)
  | n (v : Nat)
  | none
  deriving DecidableEq, Repr

/-- A decoded state dictionary (insertion-ordered, as the Python dict). -/
abbrev StateDict := List (String × Val)

/-- Callback invocations observable from the client: discovery notifications
(`_device_discovery_callbacks`) and state callbacks (`_callbacks[...]`). -/
inductive Ev where
  | disc (dtype : String) (idn : Idn)
  | state (dtype : String) (idn : Idn) (st : StateDict)
  deriving DecidableEq, Repr

/-- Link-session state of the client: the discovered-device key set (a Python
set, modelled as a duplicate-free insertion list), the last-known-state map
`_device_states`, and the set of registered callback keys `_callbacks`. -/
structure Client where
  discovered : List String
  states : List (String × StateDict)
  cbs : List String
  deriving DecidableEq, Repr

/-- `_device_states.get(key)`. -/
def mapGet (m : List (String × StateDict)) (k : String) : Option StateDict :=
  (m.find? (fun e => e.1 == k)).map Prod.snd

/-- `_device_states[key] = v`: update in place if present, else append. -/
def mapSet (m : List (String × StateDict)) (k : String) (v : StateDict) :
    List (String × StateDict) :=
  if m.any (fun e => e.1 == k) then m.map (fun e => if e.1 == k then (k, v) else e)
  else m ++ [(k, v)]

/-- `state.get(field)` on a decoded state dictionary. -/
def dget (d : StateDict) (k : String) : Option Val :=
  (d.find? (fun e => e.1 == k)).map Prod.snd

/-- Lowercase hex digit, as in Python `format(_, 'x')` / `bytes.hex()`. -/
def hexDigit (n : Nat) : Char := if n < 10 then Char.ofNat (48 + n) else Char.ofNat (87 + n)

/-- Uppercase hex digit, as in Python `"%02X"`. -/
def hexDigitU (n : Nat) : Char := if n < 10 then Char.ofNat (48 + n) else Char.ofNat (55 + n)

/-- Python `f"{b:02x}"` for a byte value. -/
def hex2 (n : Nat) : String := String.mk [hexDigit (n / 16 % 16), hexDigit (n % 16)]

/-- Python `f"{b:02X}"` for a byte value. -/
def hex2U (n : Nat) : String := String.mk [hexDigitU (n / 16 % 16), hexDigitU (n % 16)]

/-- Python `bytes.hex()` (lowercase, two characters per byte value < 256). -/
def bytesHex (l : List Nat) : String := String.join (l.map hex2)

/-- Python `' '.join(f"{b:02x}" for b in l)`. -/
def bytesHexSpaced (l : List Nat) : String := String.intercalate " " (l.map hex2)

/-- Python `str.title()` for the single lowercase words used as device names. -/
def strTitle (s : String) : String :=
  match s.data with
  | [] => ""
  | c :: r => String.mk (c.toUpper :: r)

/-- The base-16 digits of `v` read back as a decimal number — the value of
Python `int(format(v, 'x'))` — defined when every hex digit is 0-9 (the
`isdigit()` / `float(...)` success condition). -/
def decOfHexDigits (n : Nat) : Option Nat :=
  if _h : n < 16 then (if n < 10 then some n else none)
  else
    match decOfHexDigits (n / 16) with
    | some hi => if n % 16 < 10 then some (hi * 10 + n % 16) else none
    | none => none
  decreasing_by exact Nat.div_lt_self (by omega) (by omega)

/-- The nibble sequence of a byte string, i.e. the digit values of
`bytes.hex()` (byte values < 256). -/
def nibblesOf (l : List Nat) : List Nat := l.flatMap (fun b => [b / 16 % 16, b % 16])

/-- `int(hex_str)` for a digit list, defined when all digits are 0-9
(`hex_str.isdigit()`). -/
def decOfNibbles (l : List Nat) : Option Nat :=
  if l.all (fun d => d < 10) then some (l.foldl (fun a d => a * 10 + d) 0) else none

/-- `int(hex_str, 16)` for a nibble list. -/
def natOfNibbles (l : List Nat) : Nat := l.foldl (fun a d => a * 16 + d) 0

/-- The plug `power_usage` float: `float(f"{format(v1,'x')}.{format(v2,'x')}")`
with fallback 0.0 when the hex strings contain non-decimal digits. -/
def plugUsageVal (v1 v2 : Nat) : Val :=
  match decOfHexDigits v1 with
  | some d => if v2 < 10 then .tenths (d * 10 + v2) else .tenths 0
  | none => .tenths 0

/-- One device entry of RS485_DEVICE (const.py): the state report id/cmd pair
and the named commands with their id, command and ack bytes. -/
structure DeviceSpec where
  name : String
  stateId : Nat
  stateCmd : Nat
  cmds : List (String × Nat × Nat × Nat)
  deriving DecidableEq, Repr

/-- RS485_DEVICE from const.py (insertion order preserved). -/
def RS485_DEVICE : List DeviceSpec :=
  [⟨"light", 0x0E, 0x81, [("power", 0x0E, 0x41, 0xC1)]⟩,
   ⟨"plug", 0x39, 0x81, [("power", 0x39, 0x41, 0xC1)]⟩,
   ⟨"thermostat", 0x36, 0x81,
     [("mode", 0x36, 0x43, 0xC3), ("target", 0x36, 0x44, 0xC4), ("away", 0x36, 0x46, 0xC6)]⟩,
   ⟨"fan", 0x32, 0x81,
     [("power", 0x32, 0x41, 0xC1), ("speed", 0x32, 0x42, 0xC2), ("mode", 0x32, 0x43, 0xC3)]⟩,
   ⟨"gas", 0x12, 0x81, [("close", 0x12, 0x41, 0xC1)]⟩,
   ⟨"energy", 0x30, 0x81, []⟩,
   ⟨"elevator", 0x33, 0x81, [("power", 0x33, 0x41, 0xC1), ("call", 0x33, 0x43, 0xC3)]⟩,
   ⟨"doorbell", 0x40, 0x81,
     [("call", 0x40, 0x10, 0xC0), ("ring", 0x40, 0x13, 0xC3), ("talk", 0x40, 0x12, 0xC2),
      ("open", 0x40, 0x22, 0xC2), ("cancel", 0x40, 0x11, 0xC1)]⟩]

/-- Consistency of the two const.py tables: STATE_HEADER is exactly the
state id ↦ (device, state cmd) projection of RS485_DEVICE. -/
theorem stateHeader_is_derived :
    STATE_HEADER = RS485_DEVICE.map (fun d => (d.stateId, d.name, d.stateCmd)) := by decide

/-! ## Packet classifier and state decoder (`_process_packet` and friends)

The decoder is written in an error monad: `item p i` is the Python `packet[i]`
access, raising (`.error`) when out of range.  This makes the totality claim
(no index error can escape) a real statement about the embedded code. -/

/-- Python `packet[i]`: the byte at `i`, or an IndexError. -/
def item (p : List Nat) (i : Nat) : Except Unit Nat :=
  if h : i < p.length then .ok (p.get ⟨i, h⟩) else .error ()

/-- One decoded per-device emission: the callback-table key (`dtype`), the
device key used in `_discovered_devices` / `_device_states`, the instance id
passed to callbacks, and the decoded state dictionary. -/
structure Em where
  dtype : String
  key : String
  idn : Idn
  st : StateDict
  deriving DecidableEq, Repr

/-- Run the per-instance loop body over the iteration indices, collecting the
emissions of the iterations whose guards hold. -/
def emList (f : Nat → Except Unit (Option Em)) : List Nat → Except Unit (List Em)
  | [] => .ok []
  | i :: rest => do
    let e ← f i
    let es ← emList f rest
    match e with
    | some em => pure (em :: es)
    | none => pure es

/-- Light branch of `_process_state_packet`: room = low nibble of byte 2,
`light_count = packet[4] - 1`, lights `1 .. min(light_count + 1, 4) - 1`
(at most 3), light i's power = bit 0 of `packet[6 + i - 1]`. -/
def decodeLight (p : List Nat) : Except Unit (List Em) := do
  let num ← item p 2
  let room := num &&& 0x0F
  if 4 < p.length then
    let cnt ← item p 4
    let bound := min (cnt - 1 + 1) 4
    emList (fun i =>
      if 6 + i - 1 < p.length then do
        let b ← item p (6 + i - 1)
        let idn := Nat.repr room ++ "_" ++ Nat.repr i
        pure (some ⟨"light", "light_" ++ idn, .s idn, [("power", .b ((b &&& 1) == 1))]⟩)
      else pure none) (List.range' 1 (bound - 1))
  else pure []

/-- Plug branch: room = high nibble of byte 2, `plug_count = packet[4] / 3`,
plugs `1 .. min(plug_count + 1, 3) - 1` (at most 2), each at base index
`i*3 + 3`; power = bit 4 of the first byte, usage from the packed hex
digits. -/
def decodePlug (p : List Nat) : Except Unit (List Em) := do
  let num ← item p 2
  let room := num >>> 4
  if 5 < p.length then
    let dl ← item p 4
    let bound := min (dl / 3 + 1) 3
    emList (fun i => do
      let base := i * 3 + 3
      if base + 2 < p.length then do
        let b0 ← item p base
        let b1 ← item p (base + 1)
        let b2 ← item p (base + 2)
        let v1 := (b0 &&& 0x0F) ||| (b1 <<< 4) ||| (b2 >>> 4)
        let v2 := b2 &&& 0x0F
        let idn := Nat.repr room ++ "_" ++ Nat.repr i
        pure (some ⟨"plug", "plug_" ++ idn, .s idn,
          [("power", .b ((b0 &&& 0x10) != 0)), ("power_usage", plugUsageVal v1 v2)]⟩)
      else pure none) (List.range' 1 (bound - 1))
  else pure []

/-- Thermostat branch, special format (`data_length == 0x0D`): temperature
pairs from byte 10, rooms counted by nonzero pairs, target/current swapped
when current > 50 and target < 50, mode 0 iff target ≤ 5. -/
def decodeThermoSpecial (p : List Nat) : Except Unit (List Em) := do
  let roomCount := (List.range 4).countP (fun i =>
    decide ((10 + i * 2 + 1 < p.length) ∧
      (0 < p.getD (10 + i * 2) 0 ∨ 0 < p.getD (10 + i * 2 + 1) 0)))
  emList (fun i => do
    let idx := 10 + i * 2
    if idx + 1 < p.length then do
      let t0 ← item p idx
      let c0 ← item p (idx + 1)
      let room := i + 1
      let tc := if 50 < c0 ∧ t0 < 50 then (c0, t0) else (t0, c0)
      let mode := if tc.1 ≤ 5 then 0 else 1
      pure (some ⟨"thermostat", "thermostat_" ++ Nat.repr room, .n room,
        [("mode", .n mode), ("away", .b false),
         ("current_temperature", .n tc.2), ("target_temperature", .n tc.1)]⟩)
    else pure none) (List.range roomCount)

/-- The guarded bitmask read of the standard thermostat format:
`((packet[idx] & 0x1F) >> thermo_idx) & 1 if thermo_idx < 5 and
len(packet) > idx else False`. -/
def thermoBitAt (p : List Nat) (idx ti : Nat) : Except Unit Bool :=
  if ti < 5 ∧ idx < p.length then do
    let b ← item p idx
    pure (((b &&& 0x1F) >>> ti) &&& 1 == 1)
  else pure false

/-- The guarded temperature read: `packet[idx] if len(packet) > idx else 0`. -/
def byteOrZero (p : List Nat) (idx : Nat) : Except Unit Nat :=
  if idx < p.length then item p idx else pure 0

/-- Thermostat branch, standard format: `room_count = (data_length - 5) / 2`,
mode/away bitmask bytes 6/7, target/current pairs from byte 8. -/
def decodeThermoStandard (p : List Nat) (dl : Nat) : Except Unit (List Em) := do
  let roomCount := if 5 < dl then (dl - 5) / 2 else 0
  emList (fun ti => do
    let room := ti + 1
    if p.length < 8 + ti * 2 + 3 then pure none
    else do
      let modeOn ← thermoBitAt p 6 ti
      let awayOn ← thermoBitAt p 7 ti
      let target ← byteOrZero p (8 + ti * 2)
      let current ← byteOrZero p (9 + ti * 2)
      pure (some ⟨"thermostat", "thermostat_" ++ Nat.repr room, .n room,
        [("mode", .n (if modeOn then 1 else 0)), ("away", .b awayOn),
         ("current_temperature", .n current), ("target_temperature", .n target)]⟩))
    (List.range (min roomCount 15))

/-- Thermostat branch of `_process_state_packet`. -/
def decodeThermo (p : List Nat) : Except Unit (List Em) := do
  if 4 < p.length then
    let dl ← item p 4
    if dl == 0x0D then decodeThermoSpecial p
    else decodeThermoStandard p dl
  else pure []

/-- The guarded doorbell second-state read:
`packet[5] == 0x01 if len(packet) > 5 else False`. -/
def doorbellRinging (p : List Nat) : Except Unit Bool :=
  if 5 < p.length then do
    let b5 ← item p 5
    pure (b5 == 0x01)
  else pure false

/-- `_parse_state` for the singleton device types (fan, gas, energy, elevator,
doorbell); returns an empty dictionary otherwise. -/
def parseState (dt : String) (p : List Nat) : Except Unit StateDict := do
  if dt == "fan" then
    if 8 < p.length then do
      let b6 ← item p 6
      let b7 ← item p 7
      let b8 ← item p 8
      let modeVal := b8 &&& 0x03
      pure [("power", .b ((b6 &&& 0x01) != 0)),
            ("speed", .n (if b7 ≤ 3 then b7 else 0)),
            ("mode", .s (if modeVal == 0x01 then "bypass"
                         else if modeVal == 0x03 then "heat" else "unknown"))]
    else pure []
  else if dt == "gas" then
    if 6 < p.length then do
      let b6 ← item p 6
      pure [("closed", .b (((b6 &&& 0x1F) >>> 4) != 0x01))]
    else pure []
  else if dt == "energy" then
    if 12 < p.length then do
      let power := (decOfNibbles (nibblesOf ((p.drop 6).take 3))).getD 0
      let usage : Val := match decOfNibbles (nibblesOf ((p.drop 10).take 3)) with
        | some u => .tenths u
        | none => .n 0
      let base := [("power", Val.n power), ("usage", usage)]
      if 9 < p.length then
        pure (base ++ [("current_power", .cents (natOfNibbles (nibblesOf ((p.drop 6).take 3))))])
      else pure base
    else pure []
  else if dt == "elevator" then
    if 6 < p.length then do
      let b6 ← item p 6
      let b1 ← item p 1
      let b2 ← item p 2
      pure [("status", .n (b6 >>> 4)), ("floor", .n (b6 &&& 0x0F)),
            ("device_id", .s ("0x" ++ hex2U b1)), ("device_num", .s ("0x" ++ hex2U b2)),
            ("raw_packet", .bytes p)]
    else pure []
  else if dt == "doorbell" then
    if 4 < p.length then do
      let b4 ← item p 4
      let ring := b4 == 0x01
      let ringing ← doorbellRinging p
      pure [("ring", .b ring), ("ringing", .b (ring || ringing))]
    else pure []
  else pure []

/-- The per-device decode of a state packet, as an emission list (one entry per
light/plug/thermostat instance; a single entry for singleton devices when the
parsed dictionary is nonempty). -/
def decodeState (dt : String) (p : List Nat) : Except Unit (List Em) :=
  if dt == "light" then decodeLight p
  else if dt == "plug" then decodePlug p
  else if dt == "thermostat" then decodeThermo p
  else do
    let st ← parseState dt p
    pure (if st.isEmpty then [] else [⟨dt, dt, Idn.none, st⟩])

/-- Process one decoded emission: first-sight discovery (set insertion plus
discovery callbacks), unconditional state-map update, state callback when a
callback is registered for the device type. -/
def emitOne (s : Client) (e : Em) : Client × List Ev :=
  let dn :=
    if s.discovered.contains e.key then (s.discovered, ([] : List Ev))
    else (s.discovered ++ [e.key], [Ev.disc e.dtype e.idn])
  let evs2 := if s.cbs.contains e.dtype then [Ev.state e.dtype e.idn e.st] else []
  ({ s with discovered := dn.1, states := mapSet s.states e.key e.st }, dn.2 ++ evs2)

/-- Run a state-and-event step over a list, accumulating the emitted events in
order (the shape shared by the emission fold and the packet-sequence fold). -/
def accRun {σ α ε : Type} (step : σ → α → σ × List ε) (s : σ) (l : List α) : σ × List ε :=
  l.foldl (fun acc x => ((step acc.1 x).1, acc.2 ++ (step acc.1 x).2)) (s, [])

/-- Fold `emitOne` over the decoded emissions of one packet, in order. -/
def emitAll (s : Client) (es : List Em) : Client × List Ev :=
  accRun emitOne s es

/-- `_process_state_packet`. -/
def processStatePacket (s : Client) (dt : String) (p : List Nat) :
    Except Unit (Client × List Ev) := do
  let es ← decodeState dt p
  pure (emitAll s es)

/-- The Cmd sensor room number: low nibble for light, high nibble for plug. -/
def cmdRoom (dt : String) (num : Nat) : Nat :=
  if dt == "light" then num &&& 0x0F else num >>> 4

/-- The Cmd sensor display name built by `_handle_device_cmd_packet`. -/
def cmdSensorName (dt : String) (num cmd : Nat) : String :=
  if dt == "light" || dt == "plug" then
    strTitle dt ++ " " ++ Nat.repr (cmdRoom dt num) ++ " Cmd 0x" ++ hex2U cmd
  else if dt == "fan" then "Ventilation Cmd 0x" ++ hex2U cmd
  else strTitle dt ++ " Cmd 0x" ++ hex2U cmd

/-- The Cmd sensor device key built by `_handle_device_cmd_packet`. -/
def cmdSensorKey (dt : String) (num cmd : Nat) : String :=
  if dt == "light" || dt == "plug" then
    dt ++ "_" ++ Nat.repr (cmdRoom dt num) ++ "_cmd_" ++ hex2U cmd
  else dt ++ "_cmd_" ++ hex2U cmd

/-- The state dictionary a Cmd sensor callback receives. -/
def cmdSensorState (dt : String) (did num cmd : Nat) (p : List Nat) : StateDict :=
  [("device_id", .s ("0x" ++ hex2U did)), ("device_num", .s ("0x" ++ hex2U num)),
   ("command", .s ("0x" ++ hex2U cmd)), ("data", .s (bytesHex p)),
   ("packet_length", .n p.length), ("device_name", .s (cmdSensorName dt num cmd)),
   ("base_device_type", .s dt),
   ("raw_data", .s (if 4 < p.length then bytesHexSpaced ((p.drop 4).take (p.length - 6))
                    else ""))]

/-- `_handle_device_cmd_packet`: non-state packets of known devices surface as
Cmd sensors, except the reserved state-query command byte 0x01, which is
filtered out entirely.  No entry is stored in `_device_states`. -/
def handleDeviceCmdPacket (s : Client) (dt : String) (p : List Nat) :
    Except Unit (Client × List Ev) := do
  if p.length < 4 then pure (s, [])
  else do
    let did ← item p 1
    let num ← item p 2
    let cmd ← item p 3
    if cmd == 0x01 then pure (s, [])
    else do
      let key := cmdSensorKey dt num cmd
      let st := cmdSensorState dt did num cmd p
      let dn :=
        if s.discovered.contains key then (s.discovered, ([] : List Ev))
        else (s.discovered ++ [key], [Ev.disc (dt ++ "_cmd") (.s key)])
      let ct := dt ++ "_cmd"
      let evs2 :=
        if s.cbs.contains ct then [Ev.state ct (.s key) st]
        else if s.cbs.contains dt then [Ev.state ct (.s key) st]
        else []
      pure ({ s with discovered := dn.1 }, dn.2 ++ evs2)

/-- `_handle_unknown_device`: keyed by the 8-hex-character signature of the
first 4 bytes; discovery once; state stored and the callback invoked only when
the packet data differs from the stored data. -/
def handleUnknownDevice (s : Client) (p : List Nat) : Except Unit (Client × List Ev) := do
  if p.length < 4 then pure (s, [])
  else do
    let did ← item p 1
    let num ← item p 2
    let cmd ← item p 3
    let sig := bytesHex (p.take 4)
    let key := "unknown_" ++ sig
    let st : StateDict :=
      [("device_id", .s ("0x" ++ hex2U did)), ("device_num", .s ("0x" ++ hex2U num)),
       ("command", .s ("0x" ++ hex2U cmd)), ("data", .s (bytesHex p)),
       ("signature", .s sig), ("packet_length", .n p.length)] ++
      (if 4 < p.length then [("raw_data", .s (bytesHexSpaced ((p.drop 4).take (p.length - 6))))]
       else [])
    let dn :=
      if s.discovered.contains key then (s.discovered, ([] : List Ev))
      else (s.discovered ++ [key], [Ev.disc "unknown" (.s sig)])
    let oldData := match mapGet s.states key with
      | some d => dget d "data"
      | none => Option.none
    if oldData = dget st "data" then
      pure ({ s with discovered := dn.1 }, dn.2)
    else
      let evs2 := if s.cbs.contains "unknown" then [Ev.state "unknown" (.s sig) st] else []
      pure ({ s with discovered := dn.1, states := mapSet s.states key st }, dn.2 ++ evs2)

/-- `_process_packet`: length guard, known-device lookup by state id, then
state packet / Cmd sensor / unknown device routing. -/
def processPacket (s : Client) (p : List Nat) : Except Unit (Client × List Ev) := do
  if p.length < 4 then pure (s, [])
  else do
    let did ← item p 1
    let _num ← item p 2
    let cmd ← item p 3
    match RS485_DEVICE.find? (fun d => d.stateId == did) with
    | some dev =>
      match stateHeaderLookup did with
      | some dc =>
        if cmd == dc.2 then processStatePacket s dev.name p
        else handleDeviceCmdPacket s dev.name p
      | Option.none => handleDeviceCmdPacket s dev.name p
    | Option.none => handleUnknownDevice s p

/-- The total wrapper: the decoder never raises (theorem below), so the error
branch is unreachable. -/
def processPacketT (s : Client) (p : List Nat) : Client × List Ev :=
  match processPacket s p with
  | .ok r => r
  | .error _ => (s, [])

/-- Process a sequence of received packets, accumulating all callback events. -/
def runPackets (s : Client) (ps : List (List Nat)) : Client × List Ev :=
  accRun processPacketT s ps

/-- A client at session start (after connect/reconnect): empty discovered set
and state map, with the given callbacks registered. -/
def freshClient (cbs : List String) : Client := ⟨[], [], cbs⟩

/-! ## Basic lemmas about the decoder embedding -/

theorem ok_bind {α β : Type} (a : α) (f : α → Except Unit β) :
    (Except.ok a >>= f) = f a := rfl

theorem item_ok (p : List Nat) (i : Nat) (h : i < p.length) :
    item p i = .ok (p.getD i 0) := by
  unfold item
  rw [dif_pos h]
  congr 1
  simp [List.getD_eq_getElem?_getD, List.getElem?_eq_getElem h]

theorem accRun_go {σ α ε : Type} (step : σ → α → σ × List ε) (l : List α) :
    ∀ (s : σ) (evs : List ε),
    l.foldl (fun acc x => ((step acc.1 x).1, acc.2 ++ (step acc.1 x).2)) (s, evs) =
      ((accRun step s l).1, evs ++ (accRun step s l).2) := by
  induction l with
  | nil =>
    intro s evs
    simp [accRun]
  | cons x t ih =>
    intro s evs
    simp only [List.foldl_cons]
    rw [ih ((step s x).1) (evs ++ (step s x).2)]
    conv_rhs => rw [accRun]
    simp only [List.foldl_cons]
    rw [ih ((step s x).1) ([] ++ (step s x).2)]
    simp [List.append_assoc, accRun]

theorem accRun_cons {σ α ε : Type} (step : σ → α → σ × List ε) (s : σ) (x : α) (l : List α) :
    accRun step s (x :: l) =
      ((accRun step (step s x).1 l).1, (step s x).2 ++ (accRun step (step s x).1 l).2) := by
  unfold accRun
  simp only [List.foldl_cons]
  rw [accRun_go step l ((step s x).1) ([] ++ (step s x).2)]
  simp [accRun]

theorem accRun_nil {σ α ε : Type} (step : σ → α → σ × List ε) (s : σ) :
    accRun step s ([] : List α) = (s, []) := rfl

theorem emList_ok (f : Nat → Except Unit (Option Em)) (l : List Nat)
    (h : ∀ i ∈ l, ∃ o, f i = .ok o) : ∃ es, emList f l = .ok es := by
  induction l with
  | nil => exact ⟨[], rfl⟩
  | cons i rest ih =>
    obtain ⟨o, ho⟩ := h i (by simp)
    obtain ⟨es, hes⟩ := ih (fun j hj => h j (by simp [hj]))
    cases o with
    | some em0 =>
      refine ⟨em0 :: es, ?_⟩
      unfold emList
      rw [ho, ok_bind, hes, ok_bind]
      rfl
    | none =>
      refine ⟨es, ?_⟩
      unfold emList
      rw [ho, ok_bind, hes, ok_bind]
      rfl

theorem pure_eq_ok {α : Type} (a : α) : (pure a : Except Unit α) = .ok a := rfl

theorem bind_ok_ex {α β : Type} (x : Except Unit α) (f : α → Except Unit β)
    (hx : ∃ v, x = Except.ok v) (hf : ∀ v, ∃ w, f v = Except.ok w) :
    ∃ w, (x >>= f) = Except.ok w := by
  rcases hx with ⟨v, hv⟩
  rcases hf v with ⟨w, hw⟩
  refine ⟨w, ?_⟩
  rw [hv, ok_bind, hw]

theorem if_ok_ex {α : Type} (c : Prop) [Decidable c] (x y : Except Unit α)
    (hx : c → ∃ a, x = .ok a) (hy : ¬c → ∃ a, y = .ok a) :
    ∃ a, (if c then x else y) = .ok a := by
  by_cases h : c
  · rw [if_pos h]; exact hx h
  · rw [if_neg h]; exact hy h

theorem item_ex (p : List Nat) (i : Nat) (h : i < p.length) : ∃ a, item p i = .ok a :=
  ⟨p.getD i 0, item_ok p i h⟩

theorem emList_mem (f : Nat → Except Unit (Option Em)) (l : List Nat) (es : List Em)
    (h : emList f l = .ok es) : ∀ em ∈ es, ∃ i ∈ l, f i = .ok (some em) := by
  induction l generalizing es with
  | nil =>
    intro em hm
    rw [show emList f [] = .ok [] from rfl] at h
    injection h with h
    rw [← h] at hm
    simp at hm
  | cons i rest ih =>
    intro em hm
    unfold emList at h
    cases hf : f i with
    | error e => rw [hf] at h; exact absurd h (by simp [Bind.bind, Except.bind])
    | ok o =>
      rw [hf, ok_bind] at h
      cases hr : emList f rest with
      | error e => rw [hr] at h; exact absurd h (by simp [Bind.bind, Except.bind])
      | ok es2 =>
        rw [hr, ok_bind] at h
        cases o with
        | some em0 =>
          have hes : es = em0 :: es2 := by
            injection h with h
            exact h.symm
          rw [hes] at hm
          rcases List.mem_cons.mp hm with he | he
          · exact ⟨i, by simp, by rw [hf, he]⟩
          · obtain ⟨j, hj, hfj⟩ := ih es2 hr em he
            exact ⟨j, by simp [hj], hfj⟩
        | none =>
          have hes : es = es2 := by
            injection h with h
            exact h.symm
          obtain ⟨j, hj, hfj⟩ := ih es2 hr em (by rw [← hes]; exact hm)
          exact ⟨j, by simp [hj], hfj⟩

/-! ## Totality of the decode path (C10) -/

theorem decodeLight_ok (p : List Nat) (h2 : 2 < p.length) :
    ∃ es, decodeLight p = .ok es := by
  unfold decodeLight
  apply bind_ok_ex _ _ (item_ex p 2 h2)
  intro num
  apply if_ok_ex
  · intro h4
    apply bind_ok_ex _ _ (item_ex p 4 h4)
    intro cnt
    apply emList_ok
    intro i hi
    apply if_ok_ex
    · intro hg
      apply bind_ok_ex _ _ (item_ex p (6 + i - 1) hg)
      intro b
      exact ⟨_, rfl⟩
    · intro hg
      exact ⟨_, rfl⟩
  · intro h4
    exact ⟨_, rfl⟩

theorem decodePlug_ok (p : List Nat) (h2 : 2 < p.length) :
    ∃ es, decodePlug p = .ok es := by
  unfold decodePlug
  apply bind_ok_ex _ _ (item_ex p 2 h2)
  intro num
  apply if_ok_ex
  · intro h5
    apply bind_ok_ex _ _ (item_ex p 4 (by omega))
    intro dl
    apply emList_ok
    intro i hi
    dsimp only
    apply if_ok_ex
    · intro hg
      apply bind_ok_ex _ _ (item_ex p (i * 3 + 3) (by omega))
      intro b0
      apply bind_ok_ex _ _ (item_ex p (i * 3 + 3 + 1) (by omega))
      intro b1
      apply bind_ok_ex _ _ (item_ex p (i * 3 + 3 + 2) (by omega))
      intro b2
      exact ⟨_, rfl⟩
    · intro hg
      exact ⟨_, rfl⟩
  · intro h5
    exact ⟨_, rfl⟩

theorem decodeThermoSpecial_ok (p : List Nat) : ∃ es, decodeThermoSpecial p = .ok es := by
  unfold decodeThermoSpecial
  apply emList_ok
  intro i hi
  dsimp only
  apply if_ok_ex
  · intro hg
    apply bind_ok_ex _ _ (item_ex p (10 + i * 2) (by omega))
    intro t0
    apply bind_ok_ex _ _ (item_ex p (10 + i * 2 + 1) (by omega))
    intro c0
    exact ⟨_, rfl⟩
  · intro hg
    exact ⟨_, rfl⟩

theorem thermoBitAt_ok (p : List Nat) (idx ti : Nat) : ∃ b, thermoBitAt p idx ti = .ok b := by
  unfold thermoBitAt
  apply if_ok_ex
  · intro h
    apply bind_ok_ex _ _ (item_ex p idx h.2)
    intro b
    exact ⟨_, rfl⟩
  · intro h
    exact ⟨_, rfl⟩

theorem byteOrZero_ok (p : List Nat) (idx : Nat) : ∃ b, byteOrZero p idx = .ok b := by
  unfold byteOrZero
  apply if_ok_ex
  · intro h
    exact item_ex p idx h
  · intro h
    exact ⟨_, rfl⟩

theorem decodeThermoStandard_ok (p : List Nat) (dl : Nat) :
    ∃ es, decodeThermoStandard p dl = .ok es := by
  unfold decodeThermoStandard
  apply emList_ok
  intro ti hti
  dsimp only
  apply if_ok_ex
  · intro hc
    exact ⟨_, rfl⟩
  · intro hc
    apply bind_ok_ex _ _ (thermoBitAt_ok p 6 ti)
    intro modeOn
    apply bind_ok_ex _ _ (thermoBitAt_ok p 7 ti)
    intro awayOn
    apply bind_ok_ex _ _ (byteOrZero_ok p (8 + ti * 2))
    intro target
    apply bind_ok_ex _ _ (byteOrZero_ok p (9 + ti * 2))
    intro current
    exact ⟨_, rfl⟩

theorem decodeThermo_ok (p : List Nat) : ∃ es, decodeThermo p = .ok es := by
  unfold decodeThermo
  apply if_ok_ex
  · intro h4
    apply bind_ok_ex _ _ (item_ex p 4 h4)
    intro dl
    apply if_ok_ex
    · intro hd
      exact decodeThermoSpecial_ok p
    · intro hd
      exact decodeThermoStandard_ok p dl
  · intro h4
    exact ⟨_, rfl⟩

theorem parseState_ok (dt : String) (p : List Nat) : ∃ st, parseState dt p = .ok st := by
  unfold parseState
  apply if_ok_ex
  · intro hfan
    apply if_ok_ex
    · intro h8
      apply bind_ok_ex _ _ (item_ex p 6 (by omega))
      intro b6
      apply bind_ok_ex _ _ (item_ex p 7 (by omega))
      intro b7
      apply bind_ok_ex _ _ (item_ex p 8 h8)
      intro b8
      exact ⟨_, rfl⟩
    · intro h8
      exact ⟨_, rfl⟩
  · intro hfan
    apply if_ok_ex
    · intro hgas
      apply if_ok_ex
      · intro h6
        apply bind_ok_ex _ _ (item_ex p 6 h6)
        intro b6
        exact ⟨_, rfl⟩
      · intro h6
        exact ⟨_, rfl⟩
    · intro hgas
      apply if_ok_ex
      · intro hene
        apply if_ok_ex
        · intro h12
          apply if_ok_ex
          · intro h9
            exact ⟨_, rfl⟩
          · intro h9
            exact ⟨_, rfl⟩
        · intro h12
          exact ⟨_, rfl⟩
      · intro hene
        apply if_ok_ex
        · intro hele
          apply if_ok_ex
          · intro h6
            apply bind_ok_ex _ _ (item_ex p 6 h6)
            intro b6
            apply bind_ok_ex _ _ (item_ex p 1 (by omega))
            intro b1
            apply bind_ok_ex _ _ (item_ex p 2 (by omega))
            intro b2
            exact ⟨_, rfl⟩
          · intro h6
            exact ⟨_, rfl⟩
        · intro hele
          apply if_ok_ex
          · intro hdoor
            apply if_ok_ex
            · intro h4
              apply bind_ok_ex _ _ (item_ex p 4 h4)
              intro b4
              apply bind_ok_ex
              · unfold doorbellRinging
                apply if_ok_ex
                · intro h5
                  apply bind_ok_ex _ _ (item_ex p 5 h5)
                  intro b5
                  exact ⟨_, rfl⟩
                · intro h5
                  exact ⟨_, rfl⟩
              · intro ringing
                exact ⟨_, rfl⟩
            · intro h4
              exact ⟨_, rfl⟩
          · intro hdoor
            exact ⟨_, rfl⟩

theorem decodeState_ok (dt : String) (p : List Nat) (h2 : 2 < p.length) :
    ∃ es, decodeState dt p = .ok es := by
  unfold decodeState
  apply if_ok_ex
  · intro hl
    exact decodeLight_ok p h2
  · intro hl
    apply if_ok_ex
    · intro hpl
      exact decodePlug_ok p h2
    · intro hpl
      apply if_ok_ex
      · intro hth
        exact decodeThermo_ok p
      · intro hth
        apply bind_ok_ex _ _ (parseState_ok dt p)
        intro st
        exact ⟨_, rfl⟩

theorem processStatePacket_ok (s : Client) (dt : String) (p : List Nat) (h2 : 2 < p.length) :
    ∃ r, processStatePacket s dt p = .ok r := by
  unfold processStatePacket
  apply bind_ok_ex _ _ (decodeState_ok dt p h2)
  intro es
  exact ⟨_, rfl⟩

theorem handleDeviceCmdPacket_ok (s : Client) (dt : String) (p : List Nat) :
    ∃ r, handleDeviceCmdPacket s dt p = .ok r := by
  unfold handleDeviceCmdPacket
  apply if_ok_ex
  · intro h4
    exact ⟨_, rfl⟩
  · intro h4
    apply bind_ok_ex _ _ (item_ex p 1 (by omega))
    intro did
    apply bind_ok_ex _ _ (item_ex p 2 (by omega))
    intro num
    apply bind_ok_ex _ _ (item_ex p 3 (by omega))
    intro cmd
    apply if_ok_ex
    · intro hq
      exact ⟨_, rfl⟩
    · intro hq
      exact ⟨_, rfl⟩

theorem handleUnknownDevice_ok (s : Client) (p : List Nat) :
    ∃ r, handleUnknownDevice s p = .ok r := by
  unfold handleUnknownDevice
  apply if_ok_ex
  · intro h4
    exact ⟨_, rfl⟩
  · intro h4
    apply bind_ok_ex _ _ (item_ex p 1 (by omega))
    intro did
    apply bind_ok_ex _ _ (item_ex p 2 (by omega))
    intro num
    apply bind_ok_ex _ _ (item_ex p 3 (by omega))
    intro cmd
    apply if_ok_ex
    · intro hsame
      exact ⟨_, rfl⟩
    · intro hsame
      exact ⟨_, rfl⟩

/-- C10 (confirmed): `_process_packet` is total — for every client state and
every input byte sequence of any length and content, processing terminates
normally with a result (no packet index access or conversion error escapes:
every byte access (`item`) is dominated by a length guard, and every numeric
parse has a fallback). -/
theorem claim10_decoder_total (s : Client) (p : List Nat) :
    ∃ r, processPacket s p = Except.ok r := by
  unfold processPacket
  apply if_ok_ex
  · intro h4
    exact ⟨_, rfl⟩
  · intro h4
    apply bind_ok_ex _ _ (item_ex p 1 (by omega))
    intro did
    apply bind_ok_ex _ _ (item_ex p 2 (by omega))
    intro num
    apply bind_ok_ex _ _ (item_ex p 3 (by omega))
    intro cmd
    cases hf : RS485_DEVICE.find? (fun d => d.stateId == did) with
    | some dev =>
      cases hsh : stateHeaderLookup did with
      | some dc =>
        apply if_ok_ex
        · intro hc
          exact processStatePacket_ok s dev.name p (by omega)
        · intro hc
          exact handleDeviceCmdPacket_ok s dev.name p
      | none =>
        exact handleDeviceCmdPacket_ok s dev.name p
    | none =>
      exact handleUnknownDevice_ok s p

/-! ## Discovery bookkeeping (C5, C3) -/

theorem error_bind {α β : Type} (e : Unit) (f : α → Except Unit β) :
    (Except.error e >>= f) = Except.error e := rfl

theorem contains_iff (l : List String) (a : String) : l.contains a = true ↔ a ∈ l :=
  List.elem_iff

/-- The command-sensor callback keys `{device}_cmd`. -/
def cmdTypes : List String := RS485_DEVICE.map (fun d => d.name ++ "_cmd")

/-- Reconstruct the `_discovered_devices` key from the arguments of a discovery
callback, inverting how each handler builds its key from the device type and
the instance id it passes to the callback. -/
def discKey (d : String) (i : Idn) : String :=
  match i with
  | .none => d
  | .n v => d ++ "_" ++ Nat.repr v
  | .s v =>
    if d == "unknown" then "unknown_" ++ v
    else if cmdTypes.contains d then v
    else d ++ "_" ++ v

/-- Number of discovery callbacks for identity `k` in an event trace. -/
def countDisc (k : String) (evs : List Ev) : Nat :=
  evs.countP (fun e => match e with
    | .disc d i => discKey d i == k
    | _ => false)

theorem countDisc_append (k : String) (a b : List Ev) :
    countDisc k (a ++ b) = countDisc k a + countDisc k b :=
  List.countP_append _ _ _

theorem countDisc_state (k : String) (d : String) (i : Idn) (st : StateDict) :
    countDisc k [Ev.state d i st] = 0 := rfl

theorem countDisc_single (k : String) (d : String) (i : Idn) :
    countDisc k [Ev.disc d i] = if discKey d i = k then 1 else 0 := by
  unfold countDisc
  by_cases h : discKey d i = k
  · rw [if_pos h]
    have hb : (discKey d i == k) = true := by simp [h]
    simp [List.countP, List.countP.go, hb]
  · rw [if_neg h]
    have hb : (discKey d i == k) = false := by simp [h]
    simp [List.countP, List.countP.go, hb]

theorem discKey_light (v : String) : discKey "light" (.s v) = "light_" ++ v := by
  show (if ("light" == "unknown") = true then "unknown_" ++ v
        else if cmdTypes.contains "light" = true then v else "light" ++ "_" ++ v) = "light_" ++ v
  rw [if_neg (by decide), if_neg (by decide), show ("light" ++ "_" : String) = "light_" from rfl]

theorem discKey_plug (v : String) : discKey "plug" (.s v) = "plug_" ++ v := by
  show (if ("plug" == "unknown") = true then "unknown_" ++ v
        else if cmdTypes.contains "plug" = true then v else "plug" ++ "_" ++ v) = "plug_" ++ v
  rw [if_neg (by decide), if_neg (by decide), show ("plug" ++ "_" : String) = "plug_" from rfl]

theorem discKey_unknown (v : String) : discKey "unknown" (.s v) = "unknown_" ++ v := by
  show (if ("unknown" == "unknown") = true then "unknown_" ++ v
        else if cmdTypes.contains "unknown" = true then v else "unknown" ++ "_" ++ v) =
      "unknown_" ++ v
  rw [if_pos (by decide)]

theorem discKey_cmdType (d : String) (hd : cmdTypes.contains d = true)
    (hne : (d == "unknown") = false) (v : String) : discKey d (.s v) = v := by
  show (if (d == "unknown") = true then "unknown_" ++ v
        else if cmdTypes.contains d = true then v else d ++ "_" ++ v) = v
  rw [hne]
  rw [if_neg (by simp), if_pos hd]

theorem discKey_cmd (dev : DeviceSpec) (hdev : dev ∈ RS485_DEVICE) (v : String) :
    discKey (dev.name ++ "_cmd") (.s v) = v := by
  apply discKey_cmdType
  · rw [contains_iff]
    exact List.mem_map_of_mem _ hdev
  · fin_cases hdev <;> decide

/-- An emission is key-consistent when the key it stores is the one its
discovery callback arguments denote. -/
def EmOk (e : Em) : Prop := discKey e.dtype e.idn = e.key

theorem emitOne_spec (s : Client) (e : Em) :
    ((emitOne s e).1.discovered =
       if e.key ∈ s.discovered then s.discovered else s.discovered ++ [e.key]) ∧
    (emitOne s e).1.cbs = s.cbs ∧
    (emitOne s e).1.states = mapSet s.states e.key e.st ∧
    (emitOne s e).2 =
      (if e.key ∈ s.discovered then [] else [Ev.disc e.dtype e.idn]) ++
      (if s.cbs.contains e.dtype then [Ev.state e.dtype e.idn e.st] else []) := by
  unfold emitOne
  by_cases h : e.key ∈ s.discovered
  · have hc : s.discovered.contains e.key = true := (contains_iff _ _).mpr h
    simp [hc, h]
  · have hc : s.discovered.contains e.key = false := by
      rw [← Bool.not_eq_true, contains_iff]
      exact h
    simp [hc, h]

theorem emitAll_nil (s : Client) : emitAll s [] = (s, []) := rfl

theorem emitAll_cons (s : Client) (e : Em) (rest : List Em) :
    emitAll s (e :: rest) =
      ((emitAll (emitOne s e).1 rest).1, (emitOne s e).2 ++ (emitAll (emitOne s e).1 rest).2) := by
  unfold emitAll
  exact accRun_cons emitOne s e rest

theorem emitAll_disc_append (es : List Em) : ∀ s : Client,
    ∃ t, (emitAll s es).1.discovered = s.discovered ++ t ∧ ∀ k ∈ t, k ∈ es.map Em.key := by
  induction es with
  | nil =>
    intro s
    exact ⟨[], by simp [emitAll_nil], by simp⟩
  | cons e rest ih =>
    intro s
    rw [emitAll_cons]
    obtain ⟨t, ht, hsub⟩ := ih (emitOne s e).1
    rw [(emitOne_spec s e).1] at ht
    by_cases h : e.key ∈ s.discovered
    · rw [if_pos h] at ht
      exact ⟨t, ht, fun k hk => by simp [hsub k hk]⟩
    · rw [if_neg h] at ht
      refine ⟨e.key :: t, by rw [ht]; simp, ?_⟩
      intro k hk
      rcases List.mem_cons.mp hk with hk | hk
      · simp [hk]
      · simp [hsub k hk]

theorem emitAll_cbs (es : List Em) : ∀ s : Client, (emitAll s es).1.cbs = s.cbs := by
  induction es with
  | nil => intro s; rfl
  | cons e rest ih =>
    intro s
    rw [emitAll_cons]
    rw [ih, (emitOne_spec s e).2.1]

theorem countDisc_nil (k : String) : countDisc k [] = 0 := rfl

theorem emitAll_mem_iff (es : List Em) : ∀ (s : Client) (k : String),
    k ∈ (emitAll s es).1.discovered ↔ (k ∈ s.discovered ∨ k ∈ es.map Em.key) := by
  induction es with
  | nil =>
    intro s k
    simp [emitAll_nil]
  | cons e rest ih =>
    intro s k
    rw [emitAll_cons]
    dsimp only
    rw [ih, (emitOne_spec s e).1, List.map_cons, List.mem_cons]
    by_cases h : e.key ∈ s.discovered
    · rw [if_pos h]
      constructor
      · rintro (hk | hk)
        · exact Or.inl hk
        · exact Or.inr (Or.inr hk)
      · rintro (hk | hk | hk)
        · exact Or.inl hk
        · exact Or.inl (hk ▸ h)
        · exact Or.inr hk
    · rw [if_neg h]
      constructor
      · rintro (hk | hk)
        · rcases List.mem_append.mp hk with hk2 | hk2
          · exact Or.inl hk2
          · exact Or.inr (Or.inl (by simpa using hk2))
        · exact Or.inr (Or.inr hk)
      · rintro (hk | hk | hk)
        · exact Or.inl (List.mem_append.mpr (Or.inl hk))
        · exact Or.inl (List.mem_append.mpr (Or.inr (by simp [hk])))
        · exact Or.inr hk

theorem emitAll_countDisc (es : List Em) (hok : ∀ e ∈ es, EmOk e) : ∀ (s : Client) (k : String),
    countDisc k (emitAll s es).2 =
      if k ∉ s.discovered ∧ k ∈ es.map Em.key then 1 else 0 := by
  induction es with
  | nil =>
    intro s k
    rw [emitAll_nil]
    rw [countDisc_nil]
    simp
  | cons e rest ih =>
    intro s k
    rw [emitAll_cons]
    dsimp only
    rw [countDisc_append, (emitOne_spec s e).2.2.2, countDisc_append]
    have hstate : countDisc k (if s.cbs.contains e.dtype = true
        then [Ev.state e.dtype e.idn e.st] else []) = 0 := by
      by_cases h : s.cbs.contains e.dtype = true
      · rw [if_pos h]; rfl
      · rw [if_neg h]; rfl
    have hih := ih (fun x hx => hok x (by simp [hx])) (emitOne s e).1 k
    rw [(emitOne_spec s e).1] at hih
    have hkey : discKey e.dtype e.idn = e.key := hok e (by simp)
    rw [List.map_cons]
    by_cases h : e.key ∈ s.discovered
    · rw [if_pos h] at hih
      rw [if_pos h, countDisc_nil, hstate, hih, Nat.zero_add]
      by_cases hkd : k ∈ s.discovered
      · rw [if_neg (by simp [hkd]), if_neg (by simp [hkd])]
      · have hk : k ≠ e.key := fun hk => hkd (hk ▸ h)
        by_cases hkr : k ∈ rest.map Em.key
        · rw [if_pos ⟨hkd, hkr⟩, if_pos ⟨hkd, List.mem_cons.mpr (Or.inr hkr)⟩]
        · rw [if_neg (by rintro ⟨_, h2⟩; exact hkr h2),
            if_neg (by
              rintro ⟨_, h2⟩
              rcases List.mem_cons.mp h2 with h3 | h3
              · exact hk h3
              · exact hkr h3)]
    · rw [if_neg h] at hih
      rw [if_neg h, countDisc_single, hkey, hstate, Nat.add_zero, hih]
      have hmem : (k ∈ s.discovered ++ [e.key]) ↔ (k ∈ s.discovered ∨ k = e.key) := by
        rw [List.mem_append]
        simp
      by_cases hk : k = e.key
      · rw [if_pos hk.symm]
        rw [if_neg (by rintro ⟨h1, _⟩; exact h1 (hmem.mpr (Or.inr hk)))]
        rw [if_pos ⟨fun hc => h (hk ▸ hc), List.mem_cons.mpr (Or.inl hk)⟩]
      · rw [if_neg (fun he => hk he.symm), Nat.zero_add]
        by_cases hkd : k ∈ s.discovered
        · rw [if_neg (by simp [hmem, hkd]), if_neg (by simp [hkd])]
        · by_cases hkr : k ∈ rest.map Em.key
          · rw [if_pos ⟨by simp [hmem, hkd, hk], hkr⟩,
              if_pos ⟨hkd, List.mem_cons.mpr (Or.inr hkr)⟩]
          · rw [if_neg (by rintro ⟨_, h2⟩; exact hkr h2),
              if_neg (by
                rintro ⟨_, h2⟩
                rcases List.mem_cons.mp h2 with h3 | h3
                · exact hk h3
                · exact hkr h3)]

/-! ## Key consistency of the decoded emissions -/

theorem discKey_thermo (v : Nat) :
    discKey "thermostat" (.n v) = "thermostat_" ++ Nat.repr v := by
  show "thermostat" ++ "_" ++ Nat.repr v = "thermostat_" ++ Nat.repr v
  rw [show ("thermostat" ++ "_" : String) = "thermostat_" from rfl]

theorem decodeLight_emOk (p : List Nat) (es : List Em) (h : decodeLight p = .ok es) :
    ∀ em ∈ es, EmOk em := by
  intro em hm
  unfold decodeLight at h
  cases h2 : item p 2 with
  | error e => rw [h2, error_bind] at h; exact Except.noConfusion h
  | ok num =>
    rw [h2, ok_bind] at h
    by_cases h4 : 4 < p.length
    · rw [if_pos h4] at h
      cases hc : item p 4 with
      | error e => rw [hc, error_bind] at h; exact Except.noConfusion h
      | ok cnt =>
        rw [hc, ok_bind] at h
        obtain ⟨i, hi, hfi⟩ := emList_mem _ _ _ h em hm
        by_cases hg : 6 + i - 1 < p.length
        · rw [if_pos hg] at hfi
          cases hb : item p (6 + i - 1) with
          | error e => rw [hb, error_bind] at hfi; exact Except.noConfusion hfi
          | ok b =>
            rw [hb, ok_bind] at hfi
            simp only [pure_eq_ok, Except.ok.injEq, Option.some.injEq] at hfi
            rw [← hfi]
            exact discKey_light _
        · rw [if_neg hg] at hfi
          simp [pure_eq_ok] at hfi
    · rw [if_neg h4] at h
      have he : es = ([] : List Em) := by
        simp only [pure_eq_ok, Except.ok.injEq] at h
        exact h.symm
      rw [he] at hm
      simp at hm

theorem decodePlug_emOk (p : List Nat) (es : List Em) (h : decodePlug p = .ok es) :
    ∀ em ∈ es, EmOk em := by
  intro em hm
  unfold decodePlug at h
  cases h2 : item p 2 with
  | error e => rw [h2, error_bind] at h; exact Except.noConfusion h
  | ok num =>
    rw [h2, ok_bind] at h
    by_cases h5 : 5 < p.length
    · rw [if_pos h5] at h
      cases hc : item p 4 with
      | error e => rw [hc, error_bind] at h; exact Except.noConfusion h
      | ok dl =>
        rw [hc, ok_bind] at h
        obtain ⟨i, hi, hfi⟩ := emList_mem _ _ _ h em hm
        dsimp only at hfi
        by_cases hg : i * 3 + 3 + 2 < p.length
        · rw [if_pos hg] at hfi
          cases hb0 : item p (i * 3 + 3) with
          | error e => rw [hb0, error_bind] at hfi; exact Except.noConfusion hfi
          | ok b0 =>
            rw [hb0, ok_bind] at hfi
            cases hb1 : item p (i * 3 + 3 + 1) with
            | error e => rw [hb1, error_bind] at hfi; exact Except.noConfusion hfi
            | ok b1 =>
              rw [hb1, ok_bind] at hfi
              cases hb2 : item p (i * 3 + 3 + 2) with
              | error e => rw [hb2, error_bind] at hfi; exact Except.noConfusion hfi
              | ok b2 =>
                rw [hb2, ok_bind] at hfi
                simp only [pure_eq_ok, Except.ok.injEq, Option.some.injEq] at hfi
                rw [← hfi]
                exact discKey_plug _
        · rw [if_neg hg] at hfi
          simp [pure_eq_ok] at hfi
    · rw [if_neg h5] at h
      have he : es = ([] : List Em) := by
        simp only [pure_eq_ok, Except.ok.injEq] at h
        exact h.symm
      rw [he] at hm
      simp at hm

theorem decodeThermoSpecial_emOk (p : List Nat) (es : List Em)
    (h : decodeThermoSpecial p = .ok es) : ∀ em ∈ es, EmOk em := by
  intro em hm
  unfold decodeThermoSpecial at h
  obtain ⟨i, hi, hfi⟩ := emList_mem _ _ _ h em hm
  dsimp only at hfi
  by_cases hg : 10 + i * 2 + 1 < p.length
  · rw [if_pos hg] at hfi
    cases ht0 : item p (10 + i * 2) with
    | error e => rw [ht0, error_bind] at hfi; exact Except.noConfusion hfi
    | ok t0 =>
      rw [ht0, ok_bind] at hfi
      cases hc0 : item p (10 + i * 2 + 1) with
      | error e => rw [hc0, error_bind] at hfi; exact Except.noConfusion hfi
      | ok c0 =>
        rw [hc0, ok_bind] at hfi
        simp only [pure_eq_ok, Except.ok.injEq, Option.some.injEq] at hfi
        rw [← hfi]
        exact discKey_thermo _
  · rw [if_neg hg] at hfi
    simp [pure_eq_ok] at hfi

theorem decodeThermoStandard_emOk (p : List Nat) (dl : Nat) (es : List Em)
    (h : decodeThermoStandard p dl = .ok es) : ∀ em ∈ es, EmOk em := by
  intro em hm
  unfold decodeThermoStandard at h
  obtain ⟨ti, hti, hfi⟩ := emList_mem _ _ _ h em hm
  dsimp only at hfi
  by_cases hg : p.length < 8 + ti * 2 + 3
  · rw [if_pos hg] at hfi
    simp [pure_eq_ok] at hfi
  · rw [if_neg hg] at hfi
    cases hmo : thermoBitAt p 6 ti with
    | error e => rw [hmo, error_bind] at hfi; exact Except.noConfusion hfi
    | ok modeOn =>
      rw [hmo, ok_bind] at hfi
      cases hao : thermoBitAt p 7 ti with
      | error e => rw [hao, error_bind] at hfi; exact Except.noConfusion hfi
      | ok awayOn =>
        rw [hao, ok_bind] at hfi
        cases hta : byteOrZero p (8 + ti * 2) with
        | error e => rw [hta, error_bind] at hfi; exact Except.noConfusion hfi
        | ok target =>
          rw [hta, ok_bind] at hfi
          cases hcu : byteOrZero p (9 + ti * 2) with
          | error e => rw [hcu, error_bind] at hfi; exact Except.noConfusion hfi
          | ok current =>
            rw [hcu, ok_bind] at hfi
            simp only [pure_eq_ok, Except.ok.injEq, Option.some.injEq] at hfi
            rw [← hfi]
            exact discKey_thermo _

theorem decodeThermo_emOk (p : List Nat) (es : List Em) (h : decodeThermo p = .ok es) :
    ∀ em ∈ es, EmOk em := by
  unfold decodeThermo at h
  by_cases h4 : 4 < p.length
  · rw [if_pos h4] at h
    cases hc : item p 4 with
    | error e =>
      rw [hc, error_bind] at h
      exact absurd h (fun hx => Except.noConfusion hx)
    | ok dl =>
      rw [hc, ok_bind] at h
      by_cases hd : (dl == 0x0D) = true
      · rw [if_pos hd] at h
        exact decodeThermoSpecial_emOk p es h
      · rw [if_neg hd] at h
        exact decodeThermoStandard_emOk p dl es h
  · rw [if_neg h4] at h
    intro em hm
    have he : es = ([] : List Em) := by
      simp only [pure_eq_ok, Except.ok.injEq] at h
      exact h.symm
    rw [he] at hm
    simp at hm

theorem decodeState_emOk (dt : String) (p : List Nat) (es : List Em)
    (h : decodeState dt p = .ok es) : ∀ em ∈ es, EmOk em := by
  unfold decodeState at h
  by_cases hl : (dt == "light") = true
  · rw [if_pos hl] at h
    exact decodeLight_emOk p es h
  · rw [if_neg hl] at h
    by_cases hpl : (dt == "plug") = true
    · rw [if_pos hpl] at h
      exact decodePlug_emOk p es h
    · rw [if_neg hpl] at h
      by_cases hth : (dt == "thermostat") = true
      · rw [if_pos hth] at h
        exact decodeThermo_emOk p es h
      · rw [if_neg hth] at h
        intro em hm
        cases hps : parseState dt p with
        | error e => rw [hps, error_bind] at h; exact Except.noConfusion h
        | ok st =>
          rw [hps, ok_bind] at h
          simp only [pure_eq_ok, Except.ok.injEq] at h
          rw [← h] at hm
          by_cases hemp : st.isEmpty = true
          · rw [if_pos hemp] at hm
            simp at hm
          · rw [if_neg hemp] at hm
            have : em = ⟨dt, dt, Idn.none, st⟩ := by simpa using hm
            rw [this]
            exact rfl

/-! ## Routing of `_process_packet` -/

theorem stateHeaderLookup_of_find (did : Nat) (dev : DeviceSpec)
    (h : RS485_DEVICE.find? (fun d => d.stateId == did) = some dev) :
    stateHeaderLookup did = some (dev.name, dev.stateCmd) ∧ dev.stateCmd = 0x81 := by
  have hmem := List.mem_of_find?_eq_some h
  have hpred := List.find?_some h
  have hid : dev.stateId = did := by simpa using hpred
  subst hid
  fin_cases hmem <;> exact ⟨rfl, rfl⟩

theorem processPacket_state_route (s : Client) (p : List Nat) (dev : DeviceSpec)
    (h4 : 4 ≤ p.length)
    (hdev : RS485_DEVICE.find? (fun d => d.stateId == p.getD 1 0) = some dev)
    (hcmd : p.getD 3 0 = 0x81) :
    processPacket s p = processStatePacket s dev.name p := by
  obtain ⟨hsh, hsc⟩ := stateHeaderLookup_of_find _ dev hdev
  unfold processPacket
  rw [if_neg (by omega), item_ok p 1 (by omega), ok_bind, item_ok p 2 (by omega), ok_bind,
    item_ok p 3 (by omega), ok_bind, hdev, hsh]
  dsimp only
  rw [hcmd, hsc, if_pos (by decide)]

theorem processPacket_cmd_route (s : Client) (p : List Nat) (dev : DeviceSpec)
    (h4 : 4 ≤ p.length)
    (hdev : RS485_DEVICE.find? (fun d => d.stateId == p.getD 1 0) = some dev)
    (hcmd : p.getD 3 0 ≠ 0x81) :
    processPacket s p = handleDeviceCmdPacket s dev.name p := by
  obtain ⟨hsh, hsc⟩ := stateHeaderLookup_of_find _ dev hdev
  unfold processPacket
  rw [if_neg (by omega), item_ok p 1 (by omega), ok_bind, item_ok p 2 (by omega), ok_bind,
    item_ok p 3 (by omega), ok_bind, hdev, hsh]
  dsimp only
  rw [hsc, if_neg (by simp only [beq_iff_eq]; exact hcmd)]

theorem processPacket_unknown_route (s : Client) (p : List Nat)
    (h4 : 4 ≤ p.length)
    (hdev : RS485_DEVICE.find? (fun d => d.stateId == p.getD 1 0) = Option.none) :
    processPacket s p = handleUnknownDevice s p := by
  unfold processPacket
  rw [if_neg (by omega), item_ok p 1 (by omega), ok_bind, item_ok p 2 (by omega), ok_bind,
    item_ok p 3 (by omega), ok_bind, hdev]

/-! ## Per-handler discovery specifications -/

theorem processState_spec (s : Client) (dt : String) (p : List Nat) :
    ∀ r, processStatePacket s dt p = .ok r →
    (∃ t, r.1.discovered = s.discovered ++ t) ∧ r.1.cbs = s.cbs ∧
    (∀ k, k ∈ s.discovered → countDisc k r.2 = 0) := by
  intro r hr
  unfold processStatePacket at hr
  cases hd : decodeState dt p with
  | error e => rw [hd, error_bind] at hr; exact Except.noConfusion hr
  | ok es =>
    rw [hd, ok_bind] at hr
    simp only [pure_eq_ok, Except.ok.injEq] at hr
    rw [← hr]
    refine ⟨?_, emitAll_cbs es s, ?_⟩
    · obtain ⟨t, ht, _⟩ := emitAll_disc_append es s
      exact ⟨t, ht⟩
    · intro k hk
      rw [emitAll_countDisc es (decodeState_emOk dt p es hd) s k]
      rw [if_neg (by rintro ⟨h1, _⟩; exact h1 hk)]

theorem handleCmd_spec (s : Client) (dt : String) (p : List Nat)
    (hdt : ∃ dev ∈ RS485_DEVICE, dt = dev.name) :
    ∀ r, handleDeviceCmdPacket s dt p = .ok r →
    (∃ t, r.1.discovered = s.discovered ++ t) ∧ r.1.cbs = s.cbs ∧ r.1.states = s.states ∧
    (∀ k, k ∈ s.discovered → countDisc k r.2 = 0) := by
  intro r hr
  unfold handleDeviceCmdPacket at hr
  by_cases h4 : p.length < 4
  · rw [if_pos h4] at hr
    simp only [pure_eq_ok, Except.ok.injEq] at hr
    rw [← hr]
    exact ⟨⟨[], by simp⟩, rfl, rfl, fun k hk => rfl⟩
  · rw [if_neg h4, item_ok p 1 (by omega), ok_bind, item_ok p 2 (by omega), ok_bind,
      item_ok p 3 (by omega), ok_bind] at hr
    by_cases hq : (p.getD 3 0 == 0x01) = true
    · rw [if_pos hq] at hr
      simp only [pure_eq_ok, Except.ok.injEq] at hr
      rw [← hr]
      exact ⟨⟨[], by simp⟩, rfl, rfl, fun k hk => rfl⟩
    · rw [if_neg hq] at hr
      simp only [pure_eq_ok, Except.ok.injEq] at hr
      rw [← hr]
      dsimp only
      have hstev : ∀ k, countDisc k
          (if s.cbs.contains (dt ++ "_cmd") = true then
            [Ev.state (dt ++ "_cmd") (.s (cmdSensorKey dt (p.getD 2 0) (p.getD 3 0)))
              (cmdSensorState dt (p.getD 1 0) (p.getD 2 0) (p.getD 3 0) p)]
          else if s.cbs.contains dt = true then
            [Ev.state (dt ++ "_cmd") (.s (cmdSensorKey dt (p.getD 2 0) (p.getD 3 0)))
              (cmdSensorState dt (p.getD 1 0) (p.getD 2 0) (p.getD 3 0) p)]
          else []) = 0 := by
        intro k
        by_cases hc1 : s.cbs.contains (dt ++ "_cmd") = true
        · rw [if_pos hc1]; rfl
        · rw [if_neg hc1]
          by_cases hc2 : s.cbs.contains dt = true
          · rw [if_pos hc2]; rfl
          · rw [if_neg hc2]; rfl
      by_cases hm : s.discovered.contains (cmdSensorKey dt (p.getD 2 0) (p.getD 3 0)) = true
      · rw [if_pos hm]
        refine ⟨⟨[], by simp⟩, rfl, rfl, ?_⟩
        intro k hk
        rw [show (s.discovered, ([] : List Ev)).2 = ([] : List Ev) from rfl,
          List.nil_append, hstev k]
      · rw [if_neg hm]
        refine ⟨⟨[cmdSensorKey dt (p.getD 2 0) (p.getD 3 0)], rfl⟩, rfl, rfl, ?_⟩
        intro k hk
        rw [countDisc_append, hstev k, Nat.add_zero]
        obtain ⟨dev, hmem, hname⟩ := hdt
        rw [hname] at hm
        rw [countDisc_single, hname, discKey_cmd dev hmem]
        rw [if_neg]
        intro he
        rw [he] at hm
        exact hm ((contains_iff _ _).mpr hk)

theorem handleUnknown_spec (s : Client) (p : List Nat) :
    ∀ r, handleUnknownDevice s p = .ok r →
    (∃ t, r.1.discovered = s.discovered ++ t) ∧ r.1.cbs = s.cbs ∧
    (∀ k, k ∈ s.discovered → countDisc k r.2 = 0) := by
  intro r hr
  unfold handleUnknownDevice at hr
  by_cases h4 : p.length < 4
  · rw [if_pos h4] at hr
    simp only [pure_eq_ok, Except.ok.injEq] at hr
    rw [← hr]
    exact ⟨⟨[], by simp⟩, rfl, fun k hk => rfl⟩
  · rw [if_neg h4, item_ok p 1 (by omega), ok_bind, item_ok p 2 (by omega), ok_bind,
      item_ok p 3 (by omega), ok_bind] at hr
    have hdisc : ∀ k, k ∈ s.discovered → countDisc k
        ((if s.discovered.contains ("unknown_" ++ bytesHex (p.take 4)) = true then
            (s.discovered, ([] : List Ev))
          else (s.discovered ++ ["unknown_" ++ bytesHex (p.take 4)],
            [Ev.disc "unknown" (.s (bytesHex (p.take 4)))])).2) = 0 := by
      intro k hk
      by_cases hm : s.discovered.contains ("unknown_" ++ bytesHex (p.take 4)) = true
      · rw [if_pos hm]; rfl
      · rw [if_neg hm]
        rw [show ((s.discovered ++ ["unknown_" ++ bytesHex (p.take 4)],
            [Ev.disc "unknown" (.s (bytesHex (p.take 4)))]) :
            List String × List Ev).2 = [Ev.disc "unknown" (.s (bytesHex (p.take 4)))] from rfl]
        rw [countDisc_single, discKey_unknown, if_neg]
        intro he
        rw [he] at hm
        exact hm ((contains_iff _ _).mpr hk)
    have hdng : ∀ (c : Prop) [Decidable c],
        ((if c then (s.discovered, ([] : List Ev))
          else (s.discovered ++ ["unknown_" ++ bytesHex (p.take 4)],
            [Ev.disc "unknown" (.s (bytesHex (p.take 4)))])).1 = s.discovered ++
              (if c then [] else ["unknown_" ++ bytesHex (p.take 4)])) := by
      intro c hc
      by_cases h : c
      · rw [if_pos h, if_pos h, List.append_nil]
      · rw [if_neg h, if_neg h]
    by_cases hsame : (match mapGet s.states ("unknown_" ++ bytesHex (p.take 4)) with
        | some d => dget d "data"
        | Option.none => Option.none) =
        dget ([("device_id", Val.s ("0x" ++ hex2U (p.getD 1 0))),
               ("device_num", Val.s ("0x" ++ hex2U (p.getD 2 0))),
               ("command", Val.s ("0x" ++ hex2U (p.getD 3 0))),
               ("data", Val.s (bytesHex p)),
               ("signature", Val.s (bytesHex (p.take 4))),
               ("packet_length", Val.n p.length)] ++
              (if 4 < p.length then
                [("raw_data", Val.s (bytesHexSpaced ((p.drop 4).take (p.length - 6))))]
               else [])) "data"
    · rw [if_pos hsame] at hr
      simp only [pure_eq_ok, Except.ok.injEq] at hr
      rw [← hr]
      refine ⟨⟨_, hdng _⟩, rfl, ?_⟩
      intro k hk
      exact hdisc k hk
    · rw [if_neg hsame] at hr
      simp only [pure_eq_ok, Except.ok.injEq] at hr
      rw [← hr]
      refine ⟨⟨_, hdng _⟩, rfl, ?_⟩
      intro k hk
      dsimp only
      rw [countDisc_append, hdisc k hk, Nat.zero_add]
      by_cases hc : s.cbs.contains "unknown" = true
      · rw [if_pos hc]; rfl
      · rw [if_neg hc]; rfl

/-! ## Exact discovery counting per packet -/

theorem processState_count (s : Client) (dt : String) (p : List Nat) :
    ∀ r, processStatePacket s dt p = .ok r → ∀ k,
    countDisc k r.2 = if k ∉ s.discovered ∧ k ∈ r.1.discovered then 1 else 0 := by
  intro r hr k
  unfold processStatePacket at hr
  cases hd : decodeState dt p with
  | error e => rw [hd, error_bind] at hr; exact Except.noConfusion hr
  | ok es =>
    rw [hd, ok_bind] at hr
    simp only [pure_eq_ok, Except.ok.injEq] at hr
    rw [← hr]
    rw [emitAll_countDisc es (decodeState_emOk dt p es hd) s k]
    have hmem := emitAll_mem_iff es s k
    by_cases h1 : k ∈ s.discovered
    · rw [if_neg (by rintro ⟨ha, _⟩; exact ha h1),
        if_neg (by rintro ⟨ha, _⟩; exact ha h1)]
    · by_cases h2 : k ∈ es.map Em.key
      · rw [if_pos ⟨h1, h2⟩, if_pos ⟨h1, hmem.mpr (Or.inr h2)⟩]
      · rw [if_neg (by rintro ⟨_, hb⟩; exact h2 hb),
          if_neg (by rintro ⟨_, hb⟩; rcases hmem.mp hb with h | h; exacts [h1 h, h2 h])]

theorem handleCmd_count (s : Client) (dt : String) (p : List Nat)
    (hdt : ∃ dev ∈ RS485_DEVICE, dt = dev.name) :
    ∀ r, handleDeviceCmdPacket s dt p = .ok r → ∀ k,
    countDisc k r.2 = if k ∉ s.discovered ∧ k ∈ r.1.discovered then 1 else 0 := by
  intro r hr k
  unfold handleDeviceCmdPacket at hr
  by_cases h4 : p.length < 4
  · rw [if_pos h4] at hr
    simp only [pure_eq_ok, Except.ok.injEq] at hr
    rw [← hr, if_neg (by rintro ⟨ha, hb⟩; exact ha hb)]
    rfl
  · rw [if_neg h4, item_ok p 1 (by omega), ok_bind, item_ok p 2 (by omega), ok_bind,
      item_ok p 3 (by omega), ok_bind] at hr
    by_cases hq : (p.getD 3 0 == 0x01) = true
    · rw [if_pos hq] at hr
      simp only [pure_eq_ok, Except.ok.injEq] at hr
      rw [← hr, if_neg (by rintro ⟨ha, hb⟩; exact ha hb)]
      rfl
    · rw [if_neg hq] at hr
      simp only [pure_eq_ok, Except.ok.injEq] at hr
      rw [← hr]
      dsimp only
      have hstev : countDisc k
          (if s.cbs.contains (dt ++ "_cmd") = true then
            [Ev.state (dt ++ "_cmd") (.s (cmdSensorKey dt (p.getD 2 0) (p.getD 3 0)))
              (cmdSensorState dt (p.getD 1 0) (p.getD 2 0) (p.getD 3 0) p)]
          else if s.cbs.contains dt = true then
            [Ev.state (dt ++ "_cmd") (.s (cmdSensorKey dt (p.getD 2 0) (p.getD 3 0)))
              (cmdSensorState dt (p.getD 1 0) (p.getD 2 0) (p.getD 3 0) p)]
          else []) = 0 := by
        by_cases hc1 : s.cbs.contains (dt ++ "_cmd") = true
        · rw [if_pos hc1]; rfl
        · rw [if_neg hc1]
          by_cases hc2 : s.cbs.contains dt = true
          · rw [if_pos hc2]; rfl
          · rw [if_neg hc2]; rfl
      obtain ⟨dev, hmem, hname⟩ := hdt
      by_cases hm : s.discovered.contains (cmdSensorKey dt (p.getD 2 0) (p.getD 3 0)) = true
      · rw [if_pos hm]
        rw [show ((s.discovered, ([] : List Ev)) : List String × List Ev).2 = [] from rfl,
          show ((s.discovered, ([] : List Ev)) : List String × List Ev).1 = s.discovered from rfl,
          List.nil_append, hstev, if_neg (by rintro ⟨ha, hb⟩; exact ha hb)]
      · rw [if_neg hm]
        rw [show ((s.discovered ++ [cmdSensorKey dt (p.getD 2 0) (p.getD 3 0)],
            [Ev.disc (dt ++ "_cmd") (.s (cmdSensorKey dt (p.getD 2 0) (p.getD 3 0)))]) :
            List String × List Ev).2 =
            [Ev.disc (dt ++ "_cmd") (.s (cmdSensorKey dt (p.getD 2 0) (p.getD 3 0)))] from rfl,
          show ((s.discovered ++ [cmdSensorKey dt (p.getD 2 0) (p.getD 3 0)],
            [Ev.disc (dt ++ "_cmd") (.s (cmdSensorKey dt (p.getD 2 0) (p.getD 3 0)))]) :
            List String × List Ev).1 =
            s.discovered ++ [cmdSensorKey dt (p.getD 2 0) (p.getD 3 0)] from rfl]
        rw [countDisc_append, hstev, Nat.add_zero, countDisc_single, hname,
          discKey_cmd dev hmem]
        rw [hname] at hm
        by_cases hkey : cmdSensorKey dev.name (p.getD 2 0) (p.getD 3 0) = k
        · rw [if_pos hkey]
          have hnk : k ∉ s.discovered := by
            intro hk
            rw [← hkey] at hk
            exact hm ((contains_iff _ _).mpr hk)
          have hin : k ∈ s.discovered ++ [cmdSensorKey dev.name (p.getD 2 0) (p.getD 3 0)] :=
            List.mem_append.mpr (Or.inr (List.mem_singleton.mpr hkey.symm))
          rw [if_pos ⟨hnk, hin⟩]
        · rw [if_neg hkey, if_neg]
          rintro ⟨ha, hb⟩
          rcases List.mem_append.mp hb with h | h
          · exact ha h
          · exact hkey (List.mem_singleton.mp h).symm

theorem handleUnknown_count (s : Client) (p : List Nat) :
    ∀ r, handleUnknownDevice s p = .ok r → ∀ k,
    countDisc k r.2 = if k ∉ s.discovered ∧ k ∈ r.1.discovered then 1 else 0 := by
  intro r hr k
  unfold handleUnknownDevice at hr
  by_cases h4 : p.length < 4
  · rw [if_pos h4] at hr
    simp only [pure_eq_ok, Except.ok.injEq] at hr
    rw [← hr, if_neg (by rintro ⟨ha, hb⟩; exact ha hb)]
    rfl
  · rw [if_neg h4, item_ok p 1 (by omega), ok_bind, item_ok p 2 (by omega), ok_bind,
      item_ok p 3 (by omega), ok_bind] at hr
    have hdn : ∀ (hm : ¬ s.discovered.contains ("unknown_" ++ bytesHex (p.take 4)) = true),
        countDisc k [Ev.disc "unknown" (.s (bytesHex (p.take 4)))] =
          if k ∉ s.discovered ∧
              k ∈ s.discovered ++ ["unknown_" ++ bytesHex (p.take 4)] then 1 else 0 := by
      intro hm
      rw [countDisc_single, discKey_unknown]
      by_cases hkey : "unknown_" ++ bytesHex (p.take 4) = k
      · have hnk : k ∉ s.discovered := by
          intro hk
          rw [← hkey] at hk
          exact hm ((contains_iff _ _).mpr hk)
        rw [if_pos hkey, if_pos ⟨hnk, List.mem_append.mpr
          (Or.inr (by rw [hkey]; exact List.mem_singleton.mpr rfl))⟩]
      · rw [if_neg hkey, if_neg]
        rintro ⟨ha, hb⟩
        rcases List.mem_append.mp hb with h | h
        · exact ha h
        · exact hkey (List.mem_singleton.mp h).symm
    have hcase : ∀ (d : List String) (e : List Ev),
        ((if s.discovered.contains ("unknown_" ++ bytesHex (p.take 4)) = true then
            (s.discovered, ([] : List Ev))
          else (s.discovered ++ ["unknown_" ++ bytesHex (p.take 4)],
            [Ev.disc "unknown" (.s (bytesHex (p.take 4)))])) = (d, e)) →
        countDisc k e = if k ∉ s.discovered ∧ k ∈ d then 1 else 0 := by
      intro d e hde
      by_cases hm : s.discovered.contains ("unknown_" ++ bytesHex (p.take 4)) = true
      · rw [if_pos hm] at hde
        obtain ⟨hd, he⟩ := Prod.mk.injEq .. ▸ hde
        rw [← hd, ← he, if_neg (by rintro ⟨ha, hb⟩; exact ha hb)]
        rfl
      · rw [if_neg hm] at hde
        obtain ⟨hd, he⟩ := Prod.mk.injEq .. ▸ hde
        rw [← hd, ← he]
        exact hdn hm
    by_cases hsame : (match mapGet s.states ("unknown_" ++ bytesHex (p.take 4)) with
        | some d => dget d "data"
        | Option.none => Option.none) =
        dget ([("device_id", Val.s ("0x" ++ hex2U (p.getD 1 0))),
               ("device_num", Val.s ("0x" ++ hex2U (p.getD 2 0))),
               ("command", Val.s ("0x" ++ hex2U (p.getD 3 0))),
               ("data", Val.s (bytesHex p)),
               ("signature", Val.s (bytesHex (p.take 4))),
               ("packet_length", Val.n p.length)] ++
              (if 4 < p.length then
                [("raw_data", Val.s (bytesHexSpaced ((p.drop 4).take (p.length - 6))))]
               else [])) "data"
    · rw [if_pos hsame] at hr
      simp only [pure_eq_ok, Except.ok.injEq] at hr
      rw [← hr]
      exact hcase _ _ rfl
    · rw [if_neg hsame] at hr
      simp only [pure_eq_ok, Except.ok.injEq] at hr
      rw [← hr]
      dsimp only
      rw [countDisc_append]
      have hst : countDisc k (if s.cbs.contains "unknown" = true then
          [Ev.state "unknown" (.s (bytesHex (p.take 4)))
            ([("device_id", Val.s ("0x" ++ hex2U (p.getD 1 0))),
              ("device_num", Val.s ("0x" ++ hex2U (p.getD 2 0))),
              ("command", Val.s ("0x" ++ hex2U (p.getD 3 0))),
              ("data", Val.s (bytesHex p)),
              ("signature", Val.s (bytesHex (p.take 4))),
              ("packet_length", Val.n p.length)] ++
             (if 4 < p.length then
               [("raw_data", Val.s (bytesHexSpaced ((p.drop 4).take (p.length - 6))))]
              else []))]
          else []) = 0 := by
        by_cases hc : s.cbs.contains "unknown" = true
        · rw [if_pos hc]; rfl
        · rw [if_neg hc]; rfl
      rw [hst, Nat.add_zero]
      exact hcase _ _ rfl

/-! ## Per-packet discovery specification, total form -/

theorem processPacket_spec (s : Client) (p : List Nat) :
    ∀ r, processPacket s p = .ok r →
    (∃ t, r.1.discovered = s.discovered ++ t) ∧ r.1.cbs = s.cbs ∧
    (∀ k, countDisc k r.2 =
      if k ∉ s.discovered ∧ k ∈ r.1.discovered then 1 else 0) := by
  intro r hr
  by_cases h4 : p.length < 4
  · unfold processPacket at hr
    rw [if_pos h4] at hr
    simp only [pure_eq_ok, Except.ok.injEq] at hr
    rw [← hr]
    exact ⟨⟨[], by simp⟩, rfl, fun k => by
      rw [if_neg (by rintro ⟨ha, hb⟩; exact ha hb)]; rfl⟩
  · have h4n : 4 ≤ p.length := by omega
    cases hf : RS485_DEVICE.find? (fun d => d.stateId == p.getD 1 0) with
    | none =>
      rw [processPacket_unknown_route s p h4n hf] at hr
      obtain ⟨ha, hb, _⟩ := handleUnknown_spec s p r hr
      exact ⟨ha, hb, handleUnknown_count s p r hr⟩
    | some dev =>
      have hdt : ∃ d ∈ RS485_DEVICE, dev.name = d.name :=
        ⟨dev, List.mem_of_find?_eq_some hf, rfl⟩
      by_cases hcmd : p.getD 3 0 = 0x81
      · rw [processPacket_state_route s p dev h4n hf hcmd] at hr
        obtain ⟨ha, hb, _⟩ := processState_spec s dev.name p r hr
        exact ⟨ha, hb, processState_count s dev.name p r hr⟩
      · rw [processPacket_cmd_route s p dev h4n hf hcmd] at hr
        obtain ⟨ha, hb, _, _⟩ := handleCmd_spec s dev.name p hdt r hr
        exact ⟨ha, hb, handleCmd_count s dev.name p hdt r hr⟩

theorem processPacketT_spec (s : Client) (p : List Nat) :
    (∃ t, (processPacketT s p).1.discovered = s.discovered ++ t) ∧
    (processPacketT s p).1.cbs = s.cbs ∧
    (∀ k, countDisc k (processPacketT s p).2 =
      if k ∉ s.discovered ∧ k ∈ (processPacketT s p).1.discovered then 1 else 0) := by
  unfold processPacketT
  cases hp : processPacket s p with
  | ok r => exact processPacket_spec s p r hp
  | error e =>
    exact ⟨⟨[], by simp⟩, rfl, fun k => by
      rw [if_neg (by rintro ⟨ha, hb⟩; exact ha hb)]; rfl⟩

/-! ## Discovery over packet sequences -/

theorem runPackets_nil (s : Client) : runPackets s [] = (s, []) := rfl

theorem runPackets_cons (s : Client) (p : List Nat) (ps : List (List Nat)) :
    runPackets s (p :: ps) =
      ((runPackets (processPacketT s p).1 ps).1,
        (processPacketT s p).2 ++ (runPackets (processPacketT s p).1 ps).2) :=
  accRun_cons processPacketT s p ps

theorem runPackets_disc_append (ps : List (List Nat)) : ∀ s : Client,
    ∃ t, (runPackets s ps).1.discovered = s.discovered ++ t := by
  induction ps with
  | nil =>
    intro s
    exact ⟨[], by rw [runPackets_nil]; simp⟩
  | cons p rest ih =>
    intro s
    obtain ⟨t1, h1⟩ := (processPacketT_spec s p).1
    obtain ⟨t2, h2⟩ := ih (processPacketT s p).1
    refine ⟨t1 ++ t2, ?_⟩
    rw [runPackets_cons]
    show (runPackets (processPacketT s p).1 rest).1.discovered = _
    rw [h2, h1, List.append_assoc]

theorem runPackets_count (ps : List (List Nat)) : ∀ (s : Client) (k : String),
    countDisc k (runPackets s ps).2 =
      if k ∉ s.discovered ∧ k ∈ (runPackets s ps).1.discovered then 1 else 0 := by
  induction ps with
  | nil =>
    intro s k
    rw [runPackets_nil]
    rw [if_neg (by rintro ⟨ha, hb⟩; exact ha hb)]
    rfl
  | cons p rest ih =>
    intro s k
    rw [runPackets_cons]
    show countDisc k ((processPacketT s p).2 ++
        (runPackets (processPacketT s p).1 rest).2) =
      if k ∉ s.discovered ∧ k ∈ (runPackets (processPacketT s p).1 rest).1.discovered
      then 1 else 0
    rw [countDisc_append, (processPacketT_spec s p).2.2 k,
      ih (processPacketT s p).1 k]
    obtain ⟨t1, h1⟩ := (processPacketT_spec s p).1
    obtain ⟨t2, h2⟩ := runPackets_disc_append rest (processPacketT s p).1
    by_cases hk0 : k ∈ s.discovered
    · have hk1 : k ∈ (processPacketT s p).1.discovered := by
        rw [h1]; exact List.mem_append.mpr (Or.inl hk0)
      rw [if_neg (by rintro ⟨ha, _⟩; exact ha hk0),
        if_neg (by rintro ⟨ha, _⟩; exact ha hk1),
        if_neg (by rintro ⟨ha, _⟩; exact ha hk0)]
    · by_cases hk1 : k ∈ (processPacketT s p).1.discovered
      · have hk2 : k ∈ (runPackets (processPacketT s p).1 rest).1.discovered := by
          rw [h2]; exact List.mem_append.mpr (Or.inl hk1)
        rw [if_pos ⟨hk0, hk1⟩, if_neg (by rintro ⟨ha, _⟩; exact ha hk1),
          if_pos ⟨hk0, hk2⟩]
      · by_cases hk2 : k ∈ (runPackets (processPacketT s p).1 rest).1.discovered
        · rw [if_neg (by rintro ⟨_, hb⟩; exact hk1 hb), if_pos ⟨hk1, hk2⟩,
            if_pos ⟨hk0, hk2⟩]
        · rw [if_neg (by rintro ⟨_, hb⟩; exact hk1 hb),
            if_neg (by rintro ⟨_, hb⟩; exact hk2 hb),
            if_neg (by rintro ⟨_, hb⟩; exact hk2 hb)]

/-- C5 (confirmed): discovery-once invariant — over any sequence of processed
packets, the discovered-device set only grows by appending; an identity already
in the discovered set never triggers another discovery callback; and from a
fresh session start, every identity key gets exactly one discovery callback if
it is ever discovered during the run, and zero otherwise. -/
theorem claim5_discovery_once (s : Client) (ps : List (List Nat)) (k : String) :
    (∃ t, (runPackets s ps).1.discovered = s.discovered ++ t) ∧
    (k ∈ s.discovered → countDisc k (runPackets s ps).2 = 0) ∧
    (∀ cbs, countDisc k (runPackets (freshClient cbs) ps).2 =
      if k ∈ (runPackets (freshClient cbs) ps).1.discovered then 1 else 0) := by
  refine ⟨runPackets_disc_append ps s, ?_, ?_⟩
  · intro hk
    rw [runPackets_count ps s k, if_neg (by rintro ⟨ha, _⟩; exact ha hk)]
  · intro cbs
    rw [runPackets_count ps (freshClient cbs) k]
    refine if_congr ?_ rfl rfl
    constructor
    · rintro ⟨_, hb⟩
      exact hb
    · intro hb
      exact ⟨by intro h; exact (List.not_mem_nil k) h, hb⟩

theorem claim5_witness :
    countDisc "light_1_1"
      (runPackets ⟨["light_1_1"], [], ["light"]⟩
        [[0xF7, 0x0E, 0x11, 0x81, 0x03, 0x01, 0x00, 0x00, 0x6B, 0x06]]).2 = 0 ∧
    countDisc "light_1_1"
      (runPackets (freshClient ["light"])
        [[0xF7, 0x0E, 0x11, 0x81, 0x03, 0x01, 0x00, 0x00, 0x6B, 0x06],
         [0xF7, 0x0E, 0x11, 0x81, 0x03, 0x01, 0x00, 0x00, 0x6B, 0x06]]).2 = 1 := by
  constructor
  · exact (claim5_discovery_once ⟨["light_1_1"], [], ["light"]⟩
      [[0xF7, 0x0E, 0x11, 0x81, 0x03, 0x01, 0x00, 0x00, 0x6B, 0x06]]
      "light_1_1").2.1 (by decide)
  · rw [(claim5_discovery_once (freshClient ["light"])
      [[0xF7, 0x0E, 0x11, 0x81, 0x03, 0x01, 0x00, 0x00, 0x6B, 0x06],
       [0xF7, 0x0E, 0x11, 0x81, 0x03, 0x01, 0x00, 0x00, 0x6B, 0x06]]
      "light_1_1").2.2 ["light"]]
    rw [if_pos (by decide)]

/-- C8 (confirmed): for every packet whose header1 is a known device's state
id, whose command byte is the reserved state-query byte 0x01 (hence not the
state command 0x81), processing returns the client unchanged — discovered set,
state map and callbacks untouched — and emits no event at all. -/
theorem claim8_state_query_filtered (s : Client) (p : List Nat) (dev : DeviceSpec)
    (h4 : 4 ≤ p.length)
    (hdev : RS485_DEVICE.find? (fun d => d.stateId == p.getD 1 0) = some dev)
    (hq : p.getD 3 0 = 0x01) :
    processPacket s p = .ok (s, []) := by
  rw [processPacket_cmd_route s p dev h4 hdev (by rw [hq]; decide)]
  unfold handleDeviceCmdPacket
  rw [if_neg (by omega), item_ok p 1 (by omega), ok_bind, item_ok p 2 (by omega), ok_bind,
    item_ok p 3 (by omega), ok_bind, hq, if_pos (by decide)]
  rfl

theorem claim8_witness :
    processPacket (freshClient ["light", "light_cmd"])
      [0xF7, 0x0E, 0x00, 0x01, 0x00, 0x00, 0x00, 0x00] =
      .ok (freshClient ["light", "light_cmd"], []) :=
  claim8_state_query_filtered (freshClient ["light", "light_cmd"])
    [0xF7, 0x0E, 0x00, 0x01, 0x00, 0x00, 0x00, 0x00]
    ⟨"light", 0x0E, 0x81, [("power", 0x0E, 0x41, 0xC1)]⟩
    (by decide) rfl rfl

/-- C2 (code_bug basis): what the decoder actually produces on the documented
3-light state report F7 0E 11 81 03 01 00 00 6B 06.  The packet verifies, yet
the decoder treats byte 4 minus one (= 2) as the light count and reads the
power bit of light i from byte 6+i-1 (skipping byte 5, the documented first
state byte): it reports only light_1_1 and light_1_2, both with power false,
instead of the documented three lights with light_1_1 on. -/
theorem claim2_light_decode_actual :
    verifyChecksum [0xF7, 0x0E, 0x11, 0x81, 0x03, 0x01, 0x00, 0x00, 0x6B, 0x06] = true ∧
    processPacket (freshClient ["light"])
      [0xF7, 0x0E, 0x11, 0x81, 0x03, 0x01, 0x00, 0x00, 0x6B, 0x06] =
    .ok (⟨["light_1_1", "light_1_2"],
          [("light_1_1", [("power", Val.b false)]),
           ("light_1_2", [("power", Val.b false)])],
          ["light"]⟩,
         [Ev.disc "light" (.s "1_1"),
          Ev.state "light" (.s "1_1") [("power", Val.b false)],
          Ev.disc "light" (.s "1_2"),
          Ev.state "light" (.s "1_2") [("power", Val.b false)]]) :=
  ⟨rfl, rfl⟩

/-! ## Second-pass behaviour of the state handler (C3) -/

def isStateEv : Ev → Bool
  | Ev.state _ _ _ => true
  | Ev.disc _ _ => false

/-- The state-callback events of a trace, in order. -/
def stateEvs (evs : List Ev) : List Ev := evs.filter isStateEv

/-- How many state callbacks a trace carries for one device identity. -/
def countState (d : String) (i : Idn) (evs : List Ev) : Nat :=
  evs.countP (fun e => match e with
    | Ev.state d2 i2 _ => d2 == d && i2 == i
    | _ => false)

theorem stateEvs_append (a b : List Ev) : stateEvs (a ++ b) = stateEvs a ++ stateEvs b :=
  List.filter_append _ _

theorem emitOne_stateEvs (s : Client) (e : Em) :
    stateEvs (emitOne s e).2 =
      if s.cbs.contains e.dtype = true then [Ev.state e.dtype e.idn e.st] else [] := by
  rw [(emitOne_spec s e).2.2.2, stateEvs_append]
  have h1 : stateEvs (if e.key ∈ s.discovered then [] else [Ev.disc e.dtype e.idn]) = [] := by
    by_cases h : e.key ∈ s.discovered
    · rw [if_pos h]; rfl
    · rw [if_neg h]; rfl
  have h2 : stateEvs (if s.cbs.contains e.dtype = true
      then [Ev.state e.dtype e.idn e.st] else []) =
      if s.cbs.contains e.dtype = true then [Ev.state e.dtype e.idn e.st] else [] := by
    by_cases h : s.cbs.contains e.dtype = true
    · rw [if_pos h]; rfl
    · rw [if_neg h]; rfl
  rw [h1, h2, List.nil_append]

/-- The state callbacks a packet's emissions fire depend only on the registered
callbacks, not on the discovered set or the state map. -/
theorem emitAll_stateEvs (es : List Em) : ∀ s : Client,
    stateEvs (emitAll s es).2 =
      es.filterMap (fun e => if s.cbs.contains e.dtype = true
        then some (Ev.state e.dtype e.idn e.st) else Option.none) := by
  induction es with
  | nil => intro s; rfl
  | cons e rest ih =>
    intro s
    rw [emitAll_cons]
    show stateEvs ((emitOne s e).2 ++ (emitAll (emitOne s e).1 rest).2) = _
    rw [stateEvs_append, emitOne_stateEvs, ih (emitOne s e).1, (emitOne_spec s e).2.1,
      List.filterMap_cons]
    by_cases h : s.cbs.contains e.dtype = true
    · rw [if_pos h, if_pos h]
      rfl
    · rw [if_neg h, if_neg h]
      rfl

/-- Emitting keys that are all already discovered leaves the discovered set
literally unchanged. -/
theorem emitAll_discovered_stable (es : List Em) : ∀ s : Client,
    (∀ e ∈ es, e.key ∈ s.discovered) → (emitAll s es).1.discovered = s.discovered := by
  induction es with
  | nil => intro s _; rfl
  | cons e rest ih =>
    intro s hall
    rw [emitAll_cons]
    show (emitAll (emitOne s e).1 rest).1.discovered = s.discovered
    have hd : (emitOne s e).1.discovered = s.discovered := by
      rw [(emitOne_spec s e).1, if_pos (hall e (List.mem_cons_self e rest))]
    rw [ih (emitOne s e).1 (fun e2 h2 => by
      rw [hd]; exact hall e2 (List.mem_cons_of_mem e h2)), hd]

/-- C3 (corrected, amended form): processing the same validated state packet
twice in a row fires the discovery callbacks only on the first pass — the
second pass emits no discovery event and leaves the discovered set unchanged —
but the state callbacks are NOT suppressed: the second pass re-fires exactly
the same state callbacks as the first. -/
theorem claim3_duplicate_state_callbacks (s : Client) (p : List Nat) (dev : DeviceSpec)
    (h4 : 4 ≤ p.length)
    (hdev : RS485_DEVICE.find? (fun d => d.stateId == p.getD 1 0) = some dev)
    (hcmd : p.getD 3 0 = 0x81)
    (r1 r2 : Client × List Ev)
    (h1 : processPacket s p = .ok r1)
    (h2 : processPacket r1.1 p = .ok r2) :
    r2.1.discovered = r1.1.discovered ∧ r2.1.cbs = r1.1.cbs ∧
    stateEvs r2.2 = stateEvs r1.2 ∧
    (∀ k, countDisc k r2.2 = 0) := by
  rw [processPacket_state_route s p dev h4 hdev hcmd] at h1
  rw [processPacket_state_route r1.1 p dev h4 hdev hcmd] at h2
  unfold processStatePacket at h1 h2
  cases hd : decodeState dev.name p with
  | error e => rw [hd, error_bind] at h1; exact Except.noConfusion h1
  | ok es =>
    rw [hd, ok_bind] at h1 h2
    simp only [pure_eq_ok, Except.ok.injEq] at h1 h2
    have hkeys : ∀ e ∈ es, e.key ∈ r1.1.discovered := by
      intro e he
      rw [← h1]
      exact (emitAll_mem_iff es s e.key).mpr (Or.inr (List.mem_map_of_mem Em.key he))
    refine ⟨?_, ?_, ?_, ?_⟩
    · rw [← h2]
      exact emitAll_discovered_stable es r1.1 hkeys
    · rw [← h2]
      exact emitAll_cbs es r1.1
    · have hc : r1.1.cbs = s.cbs := by rw [← h1]; exact emitAll_cbs es s
      rw [← h2, emitAll_stateEvs es r1.1, hc, ← h1, emitAll_stateEvs es s]
    · intro k
      rw [← h2]
      rw [emitAll_countDisc es (decodeState_emOk dev.name p es hd) r1.1 k]
      rw [if_neg]
      rintro ⟨ha, hb⟩
      rcases List.mem_map.mp hb with ⟨e, he, hek⟩
      exact ha (hek ▸ hkeys e he)

theorem claim3_witness :
    (processPacketT (processPacketT (freshClient ["light"])
        [0xF7, 0x0E, 0x11, 0x81, 0x03, 0x01, 0x00, 0x00, 0x6B, 0x06]).1
        [0xF7, 0x0E, 0x11, 0x81, 0x03, 0x01, 0x00, 0x00, 0x6B, 0x06]).1.discovered =
      (processPacketT (freshClient ["light"])
        [0xF7, 0x0E, 0x11, 0x81, 0x03, 0x01, 0x00, 0x00, 0x6B, 0x06]).1.discovered ∧
    countDisc "light_1_1"
      (processPacketT (processPacketT (freshClient ["light"])
        [0xF7, 0x0E, 0x11, 0x81, 0x03, 0x01, 0x00, 0x00, 0x6B, 0x06]).1
        [0xF7, 0x0E, 0x11, 0x81, 0x03, 0x01, 0x00, 0x00, 0x6B, 0x06]).2 = 0 := by
  have h := claim3_duplicate_state_callbacks (freshClient ["light"])
    [0xF7, 0x0E, 0x11, 0x81, 0x03, 0x01, 0x00, 0x00, 0x6B, 0x06]
    ⟨"light", 0x0E, 0x81, [("power", 0x0E, 0x41, 0xC1)]⟩
    (by decide) rfl rfl
    (processPacketT (freshClient ["light"])
      [0xF7, 0x0E, 0x11, 0x81, 0x03, 0x01, 0x00, 0x00, 0x6B, 0x06])
    (processPacketT (processPacketT (freshClient ["light"])
      [0xF7, 0x0E, 0x11, 0x81, 0x03, 0x01, 0x00, 0x00, 0x6B, 0x06]).1
      [0xF7, 0x0E, 0x11, 0x81, 0x03, 0x01, 0x00, 0x00, 0x6B, 0x06])
    rfl rfl
  exact ⟨h.1, h.2.2.2 "light_1_1"⟩

/-- C3 (counterexample to the claimed suppression): after the first packet the
stored state of light_1_1 already equals the newly decoded state, yet the
second identical packet fires the state callback for light_1_1 again — two
state callbacks in the two-packet trace, though only one discovery. -/
theorem claim3_counterexample :
    mapGet (runPackets (freshClient ["light"])
        [[0xF7, 0x0E, 0x11, 0x81, 0x03, 0x01, 0x00, 0x00, 0x6B, 0x06]]).1.states
      "light_1_1" = some [("power", Val.b false)] ∧
    countState "light" (.s "1_1")
      (runPackets (freshClient ["light"])
        [[0xF7, 0x0E, 0x11, 0x81, 0x03, 0x01, 0x00, 0x00, 0x6B, 0x06],
         [0xF7, 0x0E, 0x11, 0x81, 0x03, 0x01, 0x00, 0x00, 0x6B, 0x06]]).2 = 2 ∧
    countDisc "light_1_1"
      (runPackets (freshClient ["light"])
        [[0xF7, 0x0E, 0x11, 0x81, 0x03, 0x01, 0x00, 0x00, 0x6B, 0x06],
         [0xF7, 0x0E, 0x11, 0x81, 0x03, 0x01, 0x00, 0x00, 0x6B, 0x06]]).2 = 1 :=
  ⟨rfl, rfl, rfl⟩

/-! ## Command packet creation (C4) -/

/-- A Python value passed as the command payload. -/
inductive Pay where
  | b (v : Bool)
  | i (v : Int)
  | s (v : String)
  | none
  deriving DecidableEq, Repr

/-- Python truthiness of a payload value. -/
def payTruthy : Pay → Bool
  | .b v => v
  | .i v => v != 0
  | .s v => v.length != 0
  | .none => false

/-- A decimal digit. -/
def isDec (c : Char) : Bool := 48 ≤ c.toNat && c.toNat ≤ 57

/-- Python `int(s)` on a decimal string: raises on anything else. -/
def pyIntNat (s : String) : Except Unit Nat :=
  match s.data with
  | [] => .error ()
  | l =>
    if l.all isDec then .ok (l.foldl (fun n c => n * 10 + (c.toNat - 48)) 0)
    else .error ()

/-- Splitting a character list at a separator character (Python
`str.split(sep)` with a one-character separator: no collapsing, an empty
input gives one empty field). -/
def splitChar (c : Char) : List Char → List (List Char)
  | [] => [[]]
  | x :: xs =>
    let r := splitChar c xs
    if x = c then [] :: r
    else
      match r with
      | [] => [[x]]
      | y :: ys => (x :: y) :: ys

/-- Python `s.split("_")` and friends. -/
def pySplit (s : String) (c : Char) : List String := (splitChar c s.data).map String.mk

/-- Python `int(payload)`: ints and bools convert, decimal strings parse,
anything else raises. -/
def pyIntOfPay : Pay → Except Unit Int
  | .b v => .ok (if v then 1 else 0)
  | .i v => .ok v
  | .s v => (pyIntNat v).map (fun n => (n : Int))
  | .none => .error ()

/-- `while len(packet) < 8: packet.append(0x00)`. -/
def padTo8 (p : List Nat) : List Nat := p ++ List.replicate (8 - p.length) 0

/-- The trailer overwrite at the end of `_create_command_packet`:
`packet[-2] = XOR of packet[:-2]; packet[-1] = sum(packet[:-2]) & 0xFF`. -/
def finishPacket (p : List Nat) : List Nat :=
  clientAppendTrailer (p.take (p.length - 2))

/-- `_create_command_packet` (rs485_client.py): unknown device or command
returns None (`.ok Option.none`); light and plug parse the `room_num` idn,
thermostat the room number; the byte layout per branch follows the source;
the packet is zero-padded to 8 bytes and its last two bytes overwritten with
the XOR checksum and the add byte.  A raised exception (failed int parse,
missing idn where one is required) is `.error`. -/
def createCommandPacket (device command : String) (idn : Option String) (payload : Pay) :
    Except Unit (Option (List Nat)) := do
  match RS485_DEVICE.find? (fun d => d.name == device) with
  | Option.none => pure Option.none
  | some dev =>
    match dev.cmds.find? (fun c => c.1 == command) with
    | Option.none => pure Option.none
    | some ci =>
      if device == "light" then
        match idn with
        | Option.none => .error ()
        | some idns =>
          if (pySplit idns '_').length == 2 then do
            let roomId ← pyIntNat ((pySplit idns '_').getD 0 "")
            let lightNum ← pyIntNat ((pySplit idns '_').getD 1 "")
            let deviceNum := (0 <<< 4) ||| roomId
            pure (some (finishPacket (padTo8
              [0xF7, ci.2.1, deviceNum, ci.2.2.1, 0x03, lightNum,
               if payTruthy payload then 0x01 else 0x00, 0x00])))
          else pure Option.none
      else if device == "plug" then
        match idn with
        | Option.none => .error ()
        | some idns =>
          if (pySplit idns '_').length == 2 then do
            let roomId ← pyIntNat ((pySplit idns '_').getD 0 "")
            let _plugNum ← pyIntNat ((pySplit idns '_').getD 1 "")
            let deviceNum := (roomId <<< 4) ||| 0
            pure (some (finishPacket (padTo8
              [0xF7, ci.2.1, deviceNum, ci.2.2.1, 0x01,
               if payTruthy payload then 0x11 else 0x10])))
          else pure Option.none
      else if device == "thermostat" then
        match idn with
        | Option.none => .error ()
        | some idns => do
          let roomId ← pyIntNat idns
          let deviceNum := (roomId <<< 4) ||| 0
          let pbyte ←
            if command == "mode" then
              pure (if payload == Pay.s "heat" then 0x01 else 0x00)
            else if command == "target" then do
              let v ← pyIntOfPay payload
              pure (v.emod 256).toNat
            else if command == "away" then
              pure (if payTruthy payload then 0x01 else 0x00)
            else
              pure 0x00
          pure (some (finishPacket (padTo8
            [0xF7, ci.2.1, deviceNum, ci.2.2.1, 0x01, pbyte])))
      else do
        let deviceNum ←
          match idn with
          | Option.none => pure 0x01
          | some idns => pyIntNat idns
        let pbyte :=
          match payload with
          | .b v => if v then 0x01 else 0x00
          | .i v => (v.emod 256).toNat
          | _ => 0x00
        pure (some (finishPacket (padTo8
          [0xF7, ci.2.1, deviceNum, ci.2.2.1, pbyte])))

/-- C4 (corrected, amended form): `_create_command_packet("plug", "power",
"1_2", payload)` always succeeds and returns the packet whose first four bytes
are [0xF7, 0x39, 0x10, 0x41] — header2 is room 1 shifted into the high nibble
with a zero low nibble, i.e. 0x10, not the claimed 0x12 — and whose payload
byte (index 5) is 0x11 for a truthy payload and 0x10 otherwise. -/
theorem claim4_plug_command_amended (payload : Pay) :
    createCommandPacket "plug" "power" (some "1_2") payload =
      .ok (some (clientAppendTrailer
        [0xF7, 0x39, 0x10, 0x41, 0x01, if payTruthy payload then 0x11 else 0x10])) ∧
    (clientAppendTrailer
        [0xF7, 0x39, 0x10, 0x41, 0x01,
         if payTruthy payload then 0x11 else 0x10]).take 4 = [0xF7, 0x39, 0x10, 0x41] := by
  by_cases h : payTruthy payload = true
  · rw [h]
    constructor
    · show createCommandPacket "plug" "power" (some "1_2") payload = _
      unfold createCommandPacket
      rw [h]
      rfl
    · rfl
  · rw [Bool.not_eq_true] at h
    rw [h]
    constructor
    · show createCommandPacket "plug" "power" (some "1_2") payload = _
      unfold createCommandPacket
      rw [h]
      rfl
    · rfl

theorem claim4_witness :
    createCommandPacket "plug" "power" (some "1_2") (Pay.b true) =
      .ok (some [0xF7, 0x39, 0x10, 0x41, 0x01, 0x11, 0x8F, 0x93]) :=
  (claim4_plug_command_amended (Pay.b true)).1

/-- C4 (counterexample): the actual plug power-on packet for idn "1_2" starts
with [0xF7, 0x39, 0x10, 0x41], not the claimed [0xF7, 0x39, 0x12, 0x41] —
`device_num = (room_id << 4) | 0` discards the plug number. -/
theorem claim4_counterexample :
    createCommandPacket "plug" "power" (some "1_2") (Pay.b true) =
      .ok (some [0xF7, 0x39, 0x10, 0x41, 0x01, 0x11, 0x8F, 0x93]) ∧
    ([0xF7, 0x39, 0x10, 0x41, 0x01, 0x11, 0x8F, 0x93] : List Nat).take 4 ≠
      [0xF7, 0x39, 0x12, 0x41] :=
  ⟨rfl, by decide⟩

/-! ## The script's command queue and ack tracking (C6) -/

/-- ACK_MAP of ezville_wallpad.py: per device id, the command byte to expected
ack byte table (dict comprehension order, later entries overwrite earlier ones
with the same key — no collisions occur here). -/
def ACK_MAP_script : List (Nat × List (Nat × Nat)) :=
  [(0x0E, [(0x41, 0xC1)]),
   (0x39, [(0x41, 0xC1)]),
   (0x36, [(0x43, 0xC3), (0x44, 0xC4), (0x46, 0xC6)]),
   (0x32, [(0x41, 0xC1), (0x42, 0xC2), (0x43, 0xC3)]),
   (0x12, [(0x41, 0xC1)]),
   (0x33, [(0x41, 0xC1), (0x43, 0xC3)]),
   (0x40, [(0x93, 0xC3), (0x12, 0xC2), (0x22, 0xC2), (0x11, 0xC1)])]

/-- `ACK_MAP[did][cmd]`: the defaultdict returns an empty dict for a missing
key, which then fails the bytearray assignment, so a missing entry is an
error at the call site (modelled as `Option.none` here, raised there). -/
def ackMapLookup (did cmd : Nat) : Option Nat :=
  match ACK_MAP_script.find? (fun e => e.1 == did) with
  | some e => (e.2.find? (fun c => c.1 == cmd)).map (fun c => c.2)
  | Option.none => Option.none

/-- ACK_HEADER of ezville_wallpad.py: device id to (device name, last ack
byte); for ids with several ack commands the comprehension keeps the last. -/
def ACK_HEADER_script : List (Nat × String × Nat) :=
  [(0x0E, "light", 0xC1), (0x39, "plug", 0xC1), (0x36, "thermostat", 0xC6),
   (0x32, "fan", 0xC3), (0x12, "gas", 0xC1), (0x33, "elevator", 0xC3),
   (0x40, "doorbell", 0xC1)]

/-- The serial/socket connection facts `serial_send_command` consults:
whether capabilities is the string "ALL", else the capability name list. -/
structure Conn where
  capAll : Bool
  caps : List String
  deriving DecidableEq, Repr

/-- The script's pending state: `serial_queue` (command packet to enqueue
time, insertion-ordered) and `serial_ack` (ack header int to command). -/
structure SState where
  queue : List (List Nat × Nat)
  ack : List (Nat × List Nat)
  deriving DecidableEq, Repr

/-- An observable action of the dispatch loop. -/
inductive SEv where
  | send (cmd : List Nat)
  deriving DecidableEq, Repr

/-- `int.from_bytes(cmd[0:4] with byte 3 replaced by the ack byte, "big")`. -/
def ackIntOf (cmd : List Nat) (a3 : Nat) : Nat :=
  ((cmd.getD 0 0) <<< 24) ||| ((cmd.getD 1 0) <<< 16) ||| ((cmd.getD 2 0) <<< 8) ||| a3

/-- `serial_ack.get(k)`. -/
def aGet (m : List (Nat × List Nat)) (k : Nat) : Option (List Nat) :=
  (m.find? (fun e => e.1 == k)).map (fun e => e.2)

/-- `serial_ack[k] = v`. -/
def aSet (m : List (Nat × List Nat)) (k : Nat) (v : List Nat) : List (Nat × List Nat) :=
  if m.any (fun e => e.1 == k) then m.map (fun e => if e.1 == k then (k, v) else e)
  else m ++ [(k, v)]

/-- `serial_ack.pop(k, None)`. -/
def aPop (m : List (Nat × List Nat)) (k : Nat) : List (Nat × List Nat) :=
  m.filter (fun e => !(e.1 == k))

/-- `serial_queue.pop(cmd)`. -/
def qPop (q : List (List Nat × Nat)) (cmd : List Nat) : List (List Nat × Nat) :=
  q.filter (fun e => !(e.1 == cmd))

/-- `serial_send_command` (ezville_wallpad.py 1045-1075): take the first
queued command; return silently when the connection lacks the capability;
otherwise send it and either drop it from queue and ack tracking (retry
window exceeded, or a zero expected-ack byte within the quick window), or
(re-)register the expected ack.  `next(iter({}))`, a missing ACK_HEADER or
ACK_MAP entry, or a short command raise. -/
def serialSendCommand (conn : Conn) (maxRetry : Nat) (now : Nat) (s : SState) :
    Except Unit (SState × List SEv) := do
  match s.queue with
  | [] => .error ()
  | (cmd, t0) :: _ => do
    let gate ←
      if conn.capAll then pure false
      else
        match ACK_HEADER_script.find? (fun e => e.1 == cmd.getD 1 0) with
        | some e => pure (!(conn.caps.contains e.2.1))
        | Option.none => .error ()
    if gate then pure (s, [])
    else if cmd.length < 4 then .error ()
    else do
      let a3 ←
        match ackMapLookup (cmd.getD 1 0) (cmd.getD 3 0) with
        | some a => pure a
        | Option.none => .error ()
      let ackInt := ackIntOf cmd a3
      let elapsed := now - t0
      if maxRetry < elapsed then
        pure (⟨qPop s.queue cmd, aPop s.ack ackInt⟩, [SEv.send cmd])
      else if 3 < elapsed then
        pure (⟨s.queue, aSet s.ack ackInt cmd⟩, [SEv.send cmd])
      else if a3 == 0x00 then
        pure (⟨qPop s.queue cmd, aPop s.ack ackInt⟩, [SEv.send cmd])
      else
        pure (⟨s.queue, aSet s.ack ackInt cmd⟩, [SEv.send cmd])

/-- One pass of the daemon loop's send step: `if serial_queue: ...` guards
the call. -/
def dispatchPass (conn : Conn) (maxRetry : Nat) (now : Nat) (s : SState) :
    Except Unit (SState × List SEv) :=
  if s.queue.isEmpty then pure (s, []) else serialSendCommand conn maxRetry now s

/-- The daemon's send step iterated over the pass times, collecting sends. -/
def runPasses (conn : Conn) (maxRetry : Nat) : SState → List Nat →
    Except Unit (SState × List SEv)
  | s, [] => pure (s, [])
  | s, t :: ts => do
    let r ← dispatchPass conn maxRetry t s
    let r2 ← runPasses conn maxRetry r.1 ts
    pure (r2.1, r.2 ++ r2.2)

theorem find?_aPop_self (k : Nat) : ∀ m : List (Nat × List Nat),
    (aPop m k).find? (fun e => e.1 == k) = Option.none := by
  intro m
  induction m with
  | nil => rfl
  | cons x xs ih =>
    unfold aPop
    rw [List.filter_cons]
    by_cases h : (x.1 == k) = true
    · rw [if_neg (by rw [h]; decide)]
      exact ih
    · rw [if_pos (by rw [Bool.not_eq_true] at h; rw [h]; rfl)]
      rw [List.find?_cons_of_neg _ (by rw [Bool.not_eq_true] at h; rw [h]; exact Bool.false_ne_true)]
      exact ih

theorem runPasses_empty_queue (conn : Conn) (maxRetry : Nat) (s : SState)
    (hq : s.queue = []) : ∀ ts, runPasses conn maxRetry s ts = .ok (s, []) := by
  intro ts
  induction ts with
  | nil => rfl
  | cons t rest ih =>
    unfold runPasses dispatchPass
    rw [hq]
    rw [show (([] : List (List Nat × Nat)).isEmpty = true) from rfl, if_pos rfl,
      pure_eq_ok, ok_bind, ih, ok_bind]
    rfl

/-- C6 (confirmed): a pending command (here: the only queued one) with a
known expected-ack byte, sent on a pass whose elapsed time since enqueue
exceeds max_retry, is removed from the pending queue and from ack tracking
in that same pass, and any number of later dispatch passes neither send it
again nor send anything else. -/
theorem claim6_ack_timeout_drop (conn : Conn) (maxRetry t0 now : Nat)
    (cmd : List Nat) (ack0 : List (Nat × List Nat)) (a3 : Nat) (ts : List Nat)
    (hcap : conn.capAll = true)
    (hlen : 4 ≤ cmd.length)
    (hmap : ackMapLookup (cmd.getD 1 0) (cmd.getD 3 0) = some a3)
    (helapsed : maxRetry < now - t0) :
    serialSendCommand conn maxRetry now ⟨[(cmd, t0)], ack0⟩ =
      .ok (⟨[], aPop ack0 (ackIntOf cmd a3)⟩, [SEv.send cmd]) ∧
    aGet (aPop ack0 (ackIntOf cmd a3)) (ackIntOf cmd a3) = Option.none ∧
    runPasses conn maxRetry ⟨[], aPop ack0 (ackIntOf cmd a3)⟩ ts =
      .ok (⟨[], aPop ack0 (ackIntOf cmd a3)⟩, []) := by
  have hq : qPop [(cmd, t0)] cmd = [] := by
    unfold qPop
    rw [List.filter_cons, if_neg (by simp)]
    rfl
  refine ⟨?_, ?_, ?_⟩
  · unfold serialSendCommand
    dsimp only
    rw [hcap]
    rw [if_pos rfl, pure_eq_ok, ok_bind, if_neg (by decide), if_neg (by omega), hmap]
    dsimp only
    rw [pure_eq_ok, ok_bind, if_pos helapsed, hq]
    rfl
  · unfold aGet
    rw [find?_aPop_self]
    rfl
  · exact runPasses_empty_queue conn maxRetry _ rfl ts

theorem claim6_witness :
    serialSendCommand ⟨true, []⟩ 30 31
      ⟨[([0xF7, 0x39, 0x10, 0x41, 0x01, 0x11, 0x8F, 0x93], 0)],
        [(0xF73910C1, [0xF7, 0x39, 0x10, 0x41, 0x01, 0x11, 0x8F, 0x93])]⟩ =
      .ok (⟨[], []⟩, [SEv.send [0xF7, 0x39, 0x10, 0x41, 0x01, 0x11, 0x8F, 0x93]]) ∧
    runPasses ⟨true, []⟩ 30 ⟨[], []⟩ [32, 40] = .ok (⟨[], []⟩, []) := by
  have h := claim6_ack_timeout_drop ⟨true, []⟩ 30 0 31
    [0xF7, 0x39, 0x10, 0x41, 0x01, 0x11, 0x8F, 0x93]
    [(0xF73910C1, [0xF7, 0x39, 0x10, 0x41, 0x01, 0x11, 0x8F, 0x93])] 0xC1 [32, 40]
    rfl (by decide) rfl (by decide)
  exact ⟨h.1, h.2.2⟩

end Ezville
